import Mathlib

/-!
Verification of the Chicago clinic entity-resolution and imputation core.

The development shallowly embeds the matching, merge and imputation logic of
the repository (src/utils/clinic_matcher.py, src/utils/data_cleaner.py,
src/utils/zipcode_imputation.py, src/utils/comprehensive_imputation.py).

Modelling conventions, stated once:
* Python floats are modelled exactly: stored numeric fields (ratings,
  coordinates) as rationals, transcendental geometry over the reals.
* Python `None` is `Option.none`; Python truthiness of a field is made
  explicit (`strTruthy`, `numTruthy`): `None`, `""`, `0.0` are falsy.
* `difflib.SequenceMatcher(None, a, b).ratio()` is an external library
  primitive; the matcher is parametrised by that similarity oracle
  `ratio : String → String → ℚ`, so every theorem below holds for the
  library's actual ratio function.
* `round(x, 1)` is modelled as `round (10*x) / 10` over ℚ (Mathlib's `round`
  rounds half up, CPython's float round is banker's; no statement below
  depends on the tie direction, and counterexamples are chosen off ties).
-/

namespace ClinicIntel

/-- Python truthiness of an optional string field: `None` and `""` are falsy. -/
def strTruthy : Option String → Bool
  | none => false
  | some s => decide (s ≠ "")

/-- Python truthiness of an optional numeric field: `None` and `0.0` are falsy. -/
def numTruthy : Option ℚ → Bool
  | none => false
  | some x => decide (x ≠ 0)

/-- The Entity Record (table `clinics` of src/database/models.py), with the
fields the matching/merge/imputation core reads or writes. -/
structure Clinic where
  id : ℕ
  name : String
  address : Option String := none
  zip_code : Option String := none
  phone : Option String := none
  website : Option String := none
  latitude : Option ℚ := none
  longitude : Option ℚ := none
  clinic_type : Option String := none
  categories : List String := []
  google_place_id : Option String := none
  yelp_business_id : Option String := none
  google_rating : Option ℚ := none
  yelp_rating : Option ℚ := none
  google_review_count : Option ℤ := none
  yelp_review_count : Option ℤ := none
  google_price_level : Option ℤ := none
  yelp_price_level : Option String := none
  combined_rating : Option ℚ := none
  rating_category : Option String := none
  is_active : Bool := true
  deriving DecidableEq, Repr

/-- A child record: a review referencing one clinic by id. -/
structure Review where
  id : ℕ
  clinic_id : ℕ
  deriving DecidableEq, Repr

/-! ## Normalizer (ClinicMatcher.normalize_*) -/

/-- `ClinicMatcher.NOISE_WORDS`. -/
def NOISE_WORDS : List String :=
  ["clinic", "medical", "center", "healthcare", "health", "care",
   "hospital", "group", "practice", "associates", "physicians",
   "llc", "inc", "pc", "md", "dds", "the", "of", "at", "and"]

/-- `ClinicMatcher.ADDRESS_ABBREVIATIONS` (insertion order kept). -/
def ADDRESS_ABBREVIATIONS : List (String × String) :=
  [("street", "st"), ("st.", "st"), ("str", "st"),
   ("avenue", "ave"), ("ave.", "ave"), ("av", "ave"),
   ("boulevard", "blvd"), ("blvd.", "blvd"),
   ("drive", "dr"), ("dr.", "dr"),
   ("road", "rd"), ("rd.", "rd"),
   ("lane", "ln"), ("ln.", "ln"),
   ("court", "ct"), ("ct.", "ct"),
   ("place", "pl"), ("pl.", "pl"),
   ("north", "n"), ("n.", "n"),
   ("south", "s"), ("s.", "s"),
   ("east", "e"), ("e.", "e"),
   ("west", "w"), ("w.", "w"),
   ("suite", "ste"), ("ste.", "ste"), ("unit", "ste"),
   ("floor", "fl"), ("fl.", "fl"),
   ("apartment", "apt"), ("apt.", "apt")]

/-- Python `str.lower()` on the ASCII range this data uses. -/
def lowerL (s : List Char) : List Char := s.map Char.toLower

/-- `re.sub(r"[^\w\s]", " ", s)`: every character that is neither a word
character (`\w`, here ASCII alphanumeric or underscore) nor whitespace is
replaced by a space. -/
def scrubPunct (s : List Char) : List Char :=
  s.map (fun c => if c.isAlphanum || c = '_' || c.isWhitespace then c else ' ')

/-- Helper of `pyWords`: accumulate the current word (reversed). -/
def wordsAux : List Char → List Char → List (List Char)
  | [], acc => if acc = [] then [] else [acc.reverse]
  | c :: cs, acc =>
    if c.isWhitespace then
      if acc = [] then wordsAux cs [] else acc.reverse :: wordsAux cs []
    else wordsAux cs (c :: acc)

/-- Python `str.split()` with no argument: split on whitespace runs,
dropping empty pieces. -/
def pyWords (s : List Char) : List (List Char) := wordsAux s []

/-- Python `" ".join(words)`. -/
def joinSpaces : List (List Char) → List Char
  | [] => []
  | [w] => w
  | w :: ws => w ++ ' ' :: joinSpaces ws

/-- `ClinicMatcher.normalize_name`: lowercase, scrub punctuation, drop noise
words, re-join with single spaces (the final `.strip()` is a no-op on a
space-joined word list). -/
def normalize_name (name : String) : String :=
  if name = "" then ""
  else
    let normalized := scrubPunct (lowerL name.data)
    let noise := NOISE_WORDS.map String.data
    let words := (pyWords normalized).filter (fun w => !(noise.contains w))
    ⟨joinSpaces words⟩

/-- `ADDRESS_ABBREVIATIONS.get(word, word)`. -/
def abbrevOf (w : List Char) : List Char :=
  ((((ADDRESS_ABBREVIATIONS.map (fun p => (p.1.data, p.2.data))).find?
    (fun p => p.1 == w)).map Prod.snd)).getD w

/-- `ClinicMatcher.normalize_address`. -/
def normalize_address (address : String) : String :=
  if address = "" then ""
  else
    let normalized := scrubPunct (lowerL address.data)
    ⟨joinSpaces ((pyWords normalized).map abbrevOf)⟩

/-- `ClinicMatcher.normalize_phone`: digits only; a leading US country code
on an 11-digit number is dropped. -/
def normalize_phone (phone : String) : String :=
  if phone = "" then ""
  else
    let digits := phone.data.filter Char.isDigit
    let digits :=
      if digits.length = 11 ∧ digits.head? = some '1' then digits.tail else digits
    ⟨digits⟩

/-- `ClinicMatcher.is_phone_match`: equality of normalized digit strings,
false when either is empty. -/
def is_phone_match (phone1 phone2 : String) : Bool :=
  let n1 := normalize_phone phone1
  let n2 := normalize_phone phone2
  if n1 = "" ∨ n2 = "" then false else n1 == n2

/-! ## Similarity Scorer -/

/-- `ClinicMatcher.calculate_name_similarity`, parametrised by the
`SequenceMatcher.ratio` oracle: 0 when either side normalizes to empty. -/
def calculate_name_similarity (ratio : String → String → ℚ)
    (name1 name2 : String) : ℚ :=
  let norm1 := normalize_name name1
  let norm2 := normalize_name name2
  if norm1 = "" ∨ norm2 = "" then 0 else ratio norm1 norm2

/-- `ClinicMatcher.calculate_address_similarity`, same oracle. -/
def calculate_address_similarity (ratio : String → String → ℚ)
    (addr1 addr2 : String) : ℚ :=
  let norm1 := normalize_address addr1
  let norm2 := normalize_address addr2
  if norm1 = "" ∨ norm2 = "" then 0 else ratio norm1 norm2

/-- `math.atan2 y x`, as the argument of the complex number `x + y*I`
(the same quadrant conventions, and `atan2 0 0 = 0`). -/
noncomputable def atan2 (y x : ℝ) : ℝ := Complex.arg { re := x, im := y }

/-- `ClinicMatcher.calculate_distance_meters` on present coordinates:
the haversine formula with earth radius 6371000 m, angles in degrees. -/
noncomputable def haversineM (lat1 lng1 lat2 lng2 : ℝ) : ℝ :=
  let lat1_rad := lat1 * Real.pi / 180
  let lat2_rad := lat2 * Real.pi / 180
  let delta_lat := (lat2 - lat1) * Real.pi / 180
  let delta_lng := (lng2 - lng1) * Real.pi / 180
  let a := Real.sin (delta_lat / 2) ^ 2 +
    Real.cos lat1_rad * Real.cos lat2_rad * Real.sin (delta_lng / 2) ^ 2
  let c := 2 * atan2 (Real.sqrt a) (Real.sqrt (1 - a))
  6371000 * c

/-- `ClinicMatcher.calculate_distance_meters`: `float('inf')` (here `⊤ : EReal`)
when any coordinate is `None`. -/
noncomputable def calculate_distance_meters :
    Option ℚ → Option ℚ → Option ℚ → Option ℚ → EReal
  | some lat1, some lng1, some lat2, some lng2 =>
      ((haversineM lat1 lng1 lat2 lng2 : ℝ) : EReal)
  | _, _, _, _ => (⊤ : EReal)

/-! ## Match Engine -/

/-- The dict `ClinicMatcher.calculate_match_score` returns (the
`match_reasons` strings are presentation only and are not modelled). -/
structure MatchResult where
  is_match : Bool
  confidence : ℚ
  score : ℕ
  name_similarity : ℚ
  address_similarity : ℚ
  distance_meters : EReal
  phone_match : Bool

open scoped Classical in
/-- `ClinicMatcher.calculate_match_score`: weighted signals
phone 40, distance ≤ 50 m 35, name similarity ≥ 0.75 15, address
similarity ≥ 0.80 10; match iff the total reaches 50. -/
noncomputable def calculate_match_score (ratio : String → String → ℚ)
    (clinic1 clinic2 : Clinic) : MatchResult :=
  let phone_ok := is_phone_match (clinic1.phone.getD "") (clinic2.phone.getD "")
  let distance := calculate_distance_meters clinic1.latitude clinic1.longitude
    clinic2.latitude clinic2.longitude
  let name_sim := calculate_name_similarity ratio clinic1.name clinic2.name
  let addr_sim := calculate_address_similarity ratio (clinic1.address.getD "")
    (clinic2.address.getD "")
  let score : ℕ :=
    (if phone_ok then 40 else 0) +
    (if distance ≤ ((50 : ℝ) : EReal) then 35 else 0) +
    (if (3 / 4 : ℚ) ≤ name_sim then 15 else 0) +
    (if (4 / 5 : ℚ) ≤ addr_sim then 10 else 0)
  { is_match := decide (50 ≤ score)
    confidence := min ((score : ℚ) / 100) 1
    score := score
    name_similarity := name_sim
    address_similarity := addr_sim
    distance_meters := distance
    phone_match := phone_ok }

open scoped Classical in
/-- C2: for every pair, `is_match` holds iff the weighted score (phone 40,
distance ≤ 50 m 35, name ≥ 0.75 15, address ≥ 0.80 10) is at least 50,
`confidence = min(score/100, 1)`; a pair scoring exactly 50 is a match and a
pair scoring 49 is not. -/
theorem calculate_match_score_decision (ratio : String → String → ℚ)
    (c1 c2 : Clinic) :
    ((calculate_match_score ratio c1 c2).is_match = true ↔
      50 ≤ (calculate_match_score ratio c1 c2).score) ∧
    (calculate_match_score ratio c1 c2).confidence =
      min (((calculate_match_score ratio c1 c2).score : ℚ) / 100) 1 ∧
    (calculate_match_score ratio c1 c2).score =
      (if is_phone_match (c1.phone.getD "") (c2.phone.getD "") then 40 else 0) +
      (if calculate_distance_meters c1.latitude c1.longitude c2.latitude c2.longitude ≤
          ((50 : ℝ) : EReal) then 35 else 0) +
      (if (3 / 4 : ℚ) ≤ calculate_name_similarity ratio c1.name c2.name then 15 else 0) +
      (if (4 / 5 : ℚ) ≤ calculate_address_similarity ratio (c1.address.getD "")
          (c2.address.getD "") then 10 else 0) ∧
    ((calculate_match_score ratio c1 c2).score = 50 →
      (calculate_match_score ratio c1 c2).is_match = true) ∧
    ((calculate_match_score ratio c1 c2).score = 49 →
      (calculate_match_score ratio c1 c2).is_match = false) := by
  refine ⟨?_, ?_, ?_, ?_, ?_⟩
  · simp [calculate_match_score]
  · simp [calculate_match_score]
  · rfl
  · intro h
    simp [calculate_match_score] at h ⊢
    omega
  · intro h
    simp [calculate_match_score] at h ⊢
    omega

/-! ## C7: the distance function -/

/-- The haversine quantity `a` vanishes at equal coordinates. -/
theorem haversineM_self (lat lng : ℝ) : haversineM lat lng lat lng = 0 := by
  have h0 : (lat - lat) * Real.pi / 180 / 2 = 0 := by ring
  have h1 : (lng - lng) * Real.pi / 180 / 2 = 0 := by ring
  simp only [haversineM, h0, h1, Real.sin_zero]
  have ha : (0 : ℝ) ^ 2 + Real.cos (lat * Real.pi / 180) *
      Real.cos (lat * Real.pi / 180) * 0 ^ 2 = 0 := by ring
  rw [ha]
  have hc : atan2 (Real.sqrt 0) (Real.sqrt (1 - 0)) = 0 := by
    have : ((1 : ℝ) - 0) = 1 := by ring
    rw [this, Real.sqrt_zero, Real.sqrt_one]
    have h1c : ({ re := 1, im := 0 } : ℂ) = 1 := by
      apply Complex.ext <;> simp
    rw [atan2, h1c, Complex.arg_one]
  rw [hc]
  ring

/-- The haversine distance is symmetric in its two points. -/
theorem haversineM_symm (lat1 lng1 lat2 lng2 : ℝ) :
    haversineM lat1 lng1 lat2 lng2 = haversineM lat2 lng2 lat1 lng1 := by
  simp only [haversineM]
  have hlat : (lat1 - lat2) * Real.pi / 180 / 2 =
      -((lat2 - lat1) * Real.pi / 180 / 2) := by ring
  have hlng : (lng1 - lng2) * Real.pi / 180 / 2 =
      -((lng2 - lng1) * Real.pi / 180 / 2) := by ring
  rw [hlat, hlng, Real.sin_neg, Real.sin_neg]
  ring_nf

/-- C7: the distance of a point to itself is 0; the distance is symmetric;
and it is `+∞` whenever any of the four coordinates is missing. -/
theorem calculate_distance_meters_props :
    (∀ lat lng : ℚ, calculate_distance_meters (some lat) (some lng)
      (some lat) (some lng) = (0 : EReal)) ∧
    (∀ lat1 lng1 lat2 lng2 : Option ℚ,
      calculate_distance_meters lat1 lng1 lat2 lng2 =
      calculate_distance_meters lat2 lng2 lat1 lng1) ∧
    (∀ lat1 lng1 lat2 lng2 : Option ℚ,
      lat1 = none ∨ lng1 = none ∨ lat2 = none ∨ lng2 = none →
      calculate_distance_meters lat1 lng1 lat2 lng2 = (⊤ : EReal)) := by
  refine ⟨?_, ?_, ?_⟩
  · intro lat lng
    show ((haversineM lat lng lat lng : ℝ) : EReal) = (0 : EReal)
    rw [haversineM_self]
    exact EReal.coe_zero
  · intro lat1 lng1 lat2 lng2
    cases lat1 <;> cases lng1 <;> cases lat2 <;> cases lng2 <;>
      simp [calculate_distance_meters, haversineM_symm]
  · intro lat1 lng1 lat2 lng2 h
    cases lat1 <;> cases lng1 <;> cases lat2 <;> cases lng2 <;>
      simp_all [calculate_distance_meters]

/-! ## Stable sorting (the observable behaviour of Python `list.sort(key=…)`,
which is a stable sort: equal keys keep their original relative order). -/

section Sorting

variable {α : Type} {β : Type} [LinearOrder β] (key : α → β)

/-- Stable ascending insertion: the new element goes in front of the first
existing element with a key not smaller than its own. -/
def insertAscBy (x : α) : List α → List α
  | [] => [x]
  | y :: ys => if key x ≤ key y then x :: y :: ys else y :: insertAscBy x ys

/-- Stable ascending sort by key. -/
def sortAscBy : List α → List α
  | [] => []
  | x :: xs => insertAscBy key x (sortAscBy xs)

/-- Stable descending insertion (Python `sort(key=…, reverse=True)`). -/
def insertDescBy (x : α) : List α → List α
  | [] => [x]
  | y :: ys => if key y ≤ key x then x :: y :: ys else y :: insertDescBy x ys

/-- Stable descending sort by key. -/
def sortDescBy : List α → List α
  | [] => []
  | x :: xs => insertDescBy key x (sortDescBy xs)

theorem insertAscBy_perm (x : α) (l : List α) :
    List.Perm (insertAscBy key x l) (x :: l) := by
  induction l with
  | nil => simp [insertAscBy]
  | cons y ys ih =>
    by_cases h : key x ≤ key y
    · simp [insertAscBy, h]
    · simp only [insertAscBy, if_neg h]
      exact ((ih.cons y).trans (List.Perm.swap x y ys))

theorem sortAscBy_perm (l : List α) : List.Perm (sortAscBy key l) l := by
  induction l with
  | nil => simp [sortAscBy]
  | cons x xs ih => exact (insertAscBy_perm key x _).trans (ih.cons x)

theorem insertAscBy_pairwise (x : α) (l : List α)
    (h : l.Pairwise (fun a b => key a ≤ key b)) :
    (insertAscBy key x l).Pairwise (fun a b => key a ≤ key b) := by
  induction l with
  | nil => simp [insertAscBy]
  | cons y ys ih =>
    rcases List.pairwise_cons.mp h with ⟨hy, hys⟩
    by_cases hxy : key x ≤ key y
    · rw [insertAscBy, if_pos hxy]
      refine List.pairwise_cons.mpr ⟨?_, h⟩
      intro b hb
      rcases List.mem_cons.mp hb with rfl | hb
      · exact hxy
      · exact le_trans hxy (hy b hb)
    · rw [insertAscBy, if_neg hxy]
      refine List.pairwise_cons.mpr ⟨?_, ih hys⟩
      intro b hb
      have hb' := (insertAscBy_perm key x ys).mem_iff.mp hb
      rcases List.mem_cons.mp hb' with rfl | hb'
      · exact le_of_lt (lt_of_not_le hxy)
      · exact hy b hb'

theorem sortAscBy_pairwise (l : List α) :
    (sortAscBy key l).Pairwise (fun a b => key a ≤ key b) := by
  induction l with
  | nil => simp [sortAscBy]
  | cons x xs ih => exact insertAscBy_pairwise key x _ ih

theorem insertDescBy_perm (x : α) (l : List α) :
    List.Perm (insertDescBy key x l) (x :: l) := by
  induction l with
  | nil => simp [insertDescBy]
  | cons y ys ih =>
    by_cases h : key y ≤ key x
    · simp [insertDescBy, h]
    · simp only [insertDescBy, if_neg h]
      exact ((ih.cons y).trans (List.Perm.swap x y ys))

theorem sortDescBy_perm (l : List α) : List.Perm (sortDescBy key l) l := by
  induction l with
  | nil => simp [sortDescBy]
  | cons x xs ih => exact (insertDescBy_perm key x _).trans (ih.cons x)

theorem insertDescBy_pairwise (x : α) (l : List α)
    (h : l.Pairwise (fun a b => key b ≤ key a)) :
    (insertDescBy key x l).Pairwise (fun a b => key b ≤ key a) := by
  induction l with
  | nil => simp [insertDescBy]
  | cons y ys ih =>
    rcases List.pairwise_cons.mp h with ⟨hy, hys⟩
    by_cases hxy : key y ≤ key x
    · rw [insertDescBy, if_pos hxy]
      refine List.pairwise_cons.mpr ⟨?_, h⟩
      intro b hb
      rcases List.mem_cons.mp hb with rfl | hb
      · exact hxy
      · exact le_trans (hy b hb) hxy
    · rw [insertDescBy, if_neg hxy]
      refine List.pairwise_cons.mpr ⟨?_, ih hys⟩
      intro b hb
      have hb' := (insertDescBy_perm key x ys).mem_iff.mp hb
      rcases List.mem_cons.mp hb' with rfl | hb'
      · exact le_of_lt (lt_of_not_le hxy)
      · exact hy b hb'

theorem sortDescBy_pairwise (l : List α) :
    (sortDescBy key l).Pairwise (fun a b => key b ≤ key a) := by
  induction l with
  | nil => simp [sortDescBy]
  | cons x xs ih => exact insertDescBy_pairwise key x _ ih

/-- The first element of a descending sort has a maximal key. -/
theorem sortDescBy_head_max (l : List α) (s : α) (rest : List α)
    (h : sortDescBy key l = s :: rest) : ∀ c ∈ l, key c ≤ key s := by
  intro c hc
  have hmem : c ∈ s :: rest := h ▸ (sortDescBy_perm key l).mem_iff.mpr hc
  rcases List.mem_cons.mp hmem with rfl | hmem
  · exact le_refl _
  · have hp := sortDescBy_pairwise key l
    rw [h] at hp
    exact (List.pairwise_cons.mp hp).1 c hmem

end Sorting

/-! ## Dedup/Merge Orchestrator (DataCleaner, src/utils/data_cleaner.py) -/

/-- `completeness_score` inside `DataCleaner._merge_clinic_group`: fixed
point weights over Python-truthy fields. -/
def completeness_score (c : Clinic) : ℕ :=
  (if strTruthy c.google_place_id then 10 else 0) +
  (if strTruthy c.yelp_business_id then 10 else 0) +
  (if numTruthy c.google_rating then 5 else 0) +
  (if numTruthy c.yelp_rating then 5 else 0) +
  (if strTruthy c.phone then 3 else 0) +
  (if strTruthy c.website then 3 else 0) +
  (if strTruthy c.address then 2 else 0)

/-- Python `a > b` on optional review counts. Both-present is the only case
the source reaches on well-formed data (a present rating always comes with a
present count); `None` comparison raises in Python and is modelled `false`. -/
def optGtInt : Option ℤ → Option ℤ → Bool
  | some a, some b => decide (b < a)
  | _, _ => false

/-- The Yelp block of the per-duplicate merge (`_merge_clinic_group`). -/
def mergeYelp (p d : Clinic) : Clinic :=
  if strTruthy p.yelp_business_id = false ∧ strTruthy d.yelp_business_id = true then
    { p with yelp_business_id := d.yelp_business_id, yelp_rating := d.yelp_rating,
             yelp_review_count := d.yelp_review_count,
             yelp_price_level := d.yelp_price_level }
  else if strTruthy p.yelp_business_id = true ∧ strTruthy d.yelp_business_id = true then
    if numTruthy d.yelp_rating = true ∧ (numTruthy p.yelp_rating = false ∨
        optGtInt d.yelp_review_count p.yelp_review_count = true) then
      { p with yelp_rating := d.yelp_rating, yelp_review_count := d.yelp_review_count }
    else p
  else p

/-- The Google block of the per-duplicate merge. -/
def mergeGoogle (p d : Clinic) : Clinic :=
  if strTruthy p.google_place_id = false ∧ strTruthy d.google_place_id = true then
    { p with google_place_id := d.google_place_id, google_rating := d.google_rating,
             google_review_count := d.google_review_count,
             google_price_level := d.google_price_level }
  else if strTruthy p.google_place_id = true ∧ strTruthy d.google_place_id = true then
    if numTruthy d.google_rating = true ∧ (numTruthy p.google_rating = false ∨
        optGtInt d.google_review_count p.google_review_count = true) then
      { p with google_rating := d.google_rating,
               google_review_count := d.google_review_count }
    else p
  else p

/-- The gap-filling block: survivor-wins-unless-empty for phone, website,
coordinates (copied as a pair), ZIP and address. -/
def mergeGaps (p d : Clinic) : Clinic :=
  let p := if strTruthy p.phone = false ∧ strTruthy d.phone = true then
    { p with phone := d.phone } else p
  let p := if strTruthy p.website = false ∧ strTruthy d.website = true then
    { p with website := d.website } else p
  let p := if numTruthy p.latitude = false ∧ numTruthy d.latitude = true then
    { p with latitude := d.latitude, longitude := d.longitude } else p
  let p := if strTruthy p.zip_code = false ∧ strTruthy d.zip_code = true then
    { p with zip_code := d.zip_code } else p
  let p := if strTruthy p.address = false ∧ strTruthy d.address = true then
    { p with address := d.address } else p
  p

/-- One duplicate folded into the survivor (field merge only). -/
def mergeFrom (p d : Clinic) : Clinic := mergeGaps (mergeGoogle (mergeYelp p d) d) d

/-- Clearing the loser's provider identifiers and soft-deleting it. -/
def clearAndDeactivate (d : Clinic) : Clinic :=
  { d with google_place_id := none, yelp_business_id := none, is_active := false }

/-- Re-point every review of clinic `fromId` to clinic `toId`. -/
def reassign_reviews (fromId toId : ℕ) (reviews : List Review) : List Review :=
  reviews.map (fun r => if r.clinic_id = fromId then { r with clinic_id := toId } else r)

/-- One iteration of the duplicate loop of `_merge_clinic_group`: merge the
duplicate's data into the survivor, clear the duplicate's provider ids,
re-point its reviews to the survivor, deactivate it. -/
def mergeStep (st : Clinic × List Clinic × List Review) (dup : Clinic) :
    Clinic × List Clinic × List Review :=
  let primary := mergeFrom st.1 dup
  let reviews := reassign_reviews dup.id primary.id st.2.2
  (primary, st.2.1 ++ [clearAndDeactivate dup], reviews)

/-- What `_merge_clinic_group` leaves behind: the merged survivor, the
deactivated losers, and the review table after re-pointing. -/
structure MergeOutcome where
  survivor : Clinic
  losers : List Clinic
  reviews : List Review
  deriving DecidableEq, Repr

/-- `DataCleaner._merge_clinic_group`: groups of fewer than two records are
untouched (`none`); otherwise members are ranked by completeness descending,
the top record survives and every other member is folded in. -/
def _merge_clinic_group (clinics : List Clinic) (reviews : List Review) :
    Option MergeOutcome :=
  if clinics.length < 2 then none
  else
    match sortDescBy completeness_score clinics with
    | [] => none
    | primary :: duplicates =>
      let st := duplicates.foldl mergeStep (primary, [], reviews)
      some ⟨st.1, st.2.1, st.2.2⟩

theorem mergeYelp_id_active (p d : Clinic) :
    (mergeYelp p d).id = p.id ∧ (mergeYelp p d).is_active = p.is_active := by
  unfold mergeYelp
  repeat' split
  all_goals exact ⟨rfl, rfl⟩

theorem mergeGoogle_id_active (p d : Clinic) :
    (mergeGoogle p d).id = p.id ∧ (mergeGoogle p d).is_active = p.is_active := by
  unfold mergeGoogle
  repeat' split
  all_goals exact ⟨rfl, rfl⟩

theorem mergeGaps_id_active (p d : Clinic) :
    (mergeGaps p d).id = p.id ∧ (mergeGaps p d).is_active = p.is_active := by
  simp only [mergeGaps]
  repeat' split
  all_goals exact ⟨rfl, rfl⟩

theorem mergeFrom_id_active (p d : Clinic) :
    (mergeFrom p d).id = p.id ∧ (mergeFrom p d).is_active = p.is_active := by
  unfold mergeFrom
  constructor
  · rw [(mergeGaps_id_active _ _).1, (mergeGoogle_id_active _ _).1,
      (mergeYelp_id_active _ _).1]
  · rw [(mergeGaps_id_active _ _).2, (mergeGoogle_id_active _ _).2,
      (mergeYelp_id_active _ _).2]

/-- The duplicate loop: survivor id and active flag are preserved, losers are
exactly the cleared-and-deactivated duplicates in order, and the review table
is the sequential re-pointing of each duplicate's reviews. -/
theorem foldl_mergeStep_spec (dups : List Clinic) :
    ∀ (p : Clinic) (acc : List Clinic) (rv : List Review),
    (dups.foldl mergeStep (p, acc, rv)).1.id = p.id ∧
    (dups.foldl mergeStep (p, acc, rv)).1.is_active = p.is_active ∧
    (dups.foldl mergeStep (p, acc, rv)).2.1 = acc ++ dups.map clearAndDeactivate ∧
    (dups.foldl mergeStep (p, acc, rv)).2.2 =
      dups.foldl (fun rv d => reassign_reviews d.id p.id rv) rv := by
  induction dups with
  | nil => intro p acc rv; simp
  | cons d ds ih =>
    intro p acc rv
    have hstep : mergeStep (p, acc, rv) d =
        (mergeFrom p d, acc ++ [clearAndDeactivate d],
          reassign_reviews d.id (mergeFrom p d).id rv) := rfl
    simp only [List.foldl_cons, hstep]
    rcases ih (mergeFrom p d) (acc ++ [clearAndDeactivate d])
      (reassign_reviews d.id (mergeFrom p d).id rv) with ⟨h1, h2, h3, h4⟩
    refine ⟨h1.trans (mergeFrom_id_active p d).1,
      h2.trans (mergeFrom_id_active p d).2, ?_, ?_⟩
    · rw [h3]; simp
    · rw [h4, (mergeFrom_id_active p d).1]

/-- Folding the per-duplicate review re-pointing equals one map, provided the
survivor's id is not among the duplicates' ids. -/
theorem reassign_fold_eq_map (pid : ℕ) (dups : List Clinic)
    (hp : pid ∉ dups.map Clinic.id) (rv : List Review) :
    dups.foldl (fun rv d => reassign_reviews d.id pid rv) rv =
    rv.map (fun r => if r.clinic_id ∈ dups.map Clinic.id then
      { r with clinic_id := pid } else r) := by
  induction dups generalizing rv with
  | nil => simp
  | cons d ds ih =>
    have hp' : pid ∉ ds.map Clinic.id := fun h => hp (by simp [h])
    simp only [List.foldl_cons]
    rw [ih hp', reassign_reviews, List.map_map]
    apply List.map_congr_left
    intro r _
    simp only [Function.comp_apply]
    by_cases hr : r.clinic_id = d.id
    · rw [if_pos hr,
        if_neg (show ({ r with clinic_id := pid } : Review).clinic_id ∉
          ds.map Clinic.id from hp'),
        if_pos (show r.clinic_id ∈ (d :: ds).map Clinic.id by simp [hr])]
    · rw [if_neg hr]
      by_cases hm : r.clinic_id ∈ ds.map Clinic.id
      · rw [if_pos hm,
          if_pos (show r.clinic_id ∈ (d :: ds).map Clinic.id by simp [hm])]
      · rw [if_neg hm,
          if_neg (show r.clinic_id ∉ (d :: ds).map Clinic.id by
            simp only [List.map_cons, List.mem_cons]
            push_neg
            exact ⟨hr, fun h => hm h⟩)]

/-- C1: for a cluster of at least two active records with distinct ids,
after `_merge_clinic_group` exactly one member (the survivor) remains active,
every other member is inactive with both provider identifiers cleared, and
every review that referenced a deactivated member references the survivor. -/
theorem merge_cluster_invariant (clinics : List Clinic) (reviews : List Review)
    (o : MergeOutcome)
    (hact : ∀ c ∈ clinics, c.is_active = true)
    (hid : (clinics.map Clinic.id).Nodup)
    (h : _merge_clinic_group clinics reviews = some o) :
    o.survivor.is_active = true ∧
    (∀ l ∈ o.losers, l.is_active = false ∧ l.google_place_id = none ∧
      l.yelp_business_id = none) ∧
    List.Perm (o.survivor.id :: o.losers.map Clinic.id) (clinics.map Clinic.id) ∧
    o.reviews = reviews.map (fun r =>
      if r.clinic_id ∈ o.losers.map Clinic.id then
        { r with clinic_id := o.survivor.id } else r) := by
  unfold _merge_clinic_group at h
  by_cases hlen : clinics.length < 2
  · rw [if_pos hlen] at h; exact absurd h (by simp)
  rw [if_neg hlen] at h
  rcases hs : sortDescBy completeness_score clinics with _ | ⟨primary, dups⟩
  · rw [hs] at h; exact absurd h (by simp)
  rw [hs] at h
  simp only [Option.some.injEq] at h
  have hperm : List.Perm (primary :: dups) clinics := by
    have := sortDescBy_perm completeness_score clinics
    rwa [hs] at this
  have hprim_mem : primary ∈ clinics := hperm.mem_iff.mp (List.mem_cons_self _ _)
  have hids : List.Perm (primary.id :: dups.map Clinic.id) (clinics.map Clinic.id) := by
    have := hperm.map Clinic.id
    simpa using this
  have hnd : (primary.id :: dups.map Clinic.id).Nodup :=
    (hids.nodup_iff).mpr hid
  have hp_not : primary.id ∉ dups.map Clinic.id := (List.nodup_cons.mp hnd).1
  obtain ⟨h1, h2, h3, h4⟩ := foldl_mergeStep_spec dups primary [] reviews
  have hsurv_id : o.survivor.id = primary.id := by rw [← h]; exact h1
  have hsurv_act : o.survivor.is_active = primary.is_active := by rw [← h]; exact h2
  have hlosers : o.losers = dups.map clearAndDeactivate := by
    rw [← h]; simpa using h3
  have hlosers_ids : o.losers.map Clinic.id = dups.map Clinic.id := by
    rw [hlosers, List.map_map]
    rfl
  refine ⟨?_, ?_, ?_, ?_⟩
  · rw [hsurv_act]; exact hact primary hprim_mem
  · intro l hl
    rw [hlosers] at hl
    rcases List.mem_map.mp hl with ⟨d, _, rfl⟩
    exact ⟨rfl, rfl, rfl⟩
  · rw [hsurv_id, hlosers_ids]; exact hids
  · have hrev : o.reviews =
        dups.foldl (fun rv d => reassign_reviews d.id primary.id rv) reviews := by
      rw [← h]; exact h4
    rw [hrev, reassign_fold_eq_map primary.id dups hp_not reviews,
      hlosers_ids, hsurv_id]

/-- Concrete inputs for the merge witnesses: two active clinics with distinct
ids (the second more complete), and one review per clinic. -/
def wMergeA : Clinic := { id := 1, name := "A", phone := some "3125550000" }

def wMergeB : Clinic :=
  { id := 2, name := "B", yelp_business_id := some "Y9", yelp_rating := some 4 }

def wMergeReviews : List Review := [⟨100, 1⟩, ⟨101, 2⟩]

/-- Witness for C1 at a concrete two-record cluster. -/
theorem merge_cluster_invariant_witness :
    ∃ o, _merge_clinic_group [wMergeA, wMergeB] wMergeReviews = some o ∧
      o.survivor.is_active = true ∧
      (∀ l ∈ o.losers, l.is_active = false ∧ l.google_place_id = none ∧
        l.yelp_business_id = none) ∧
      o.reviews = wMergeReviews.map (fun r =>
        if r.clinic_id ∈ o.losers.map Clinic.id then
          { r with clinic_id := o.survivor.id } else r) := by
  rcases ho : _merge_clinic_group [wMergeA, wMergeB] wMergeReviews with _ | o
  · exact absurd ho (by decide)
  · obtain ⟨h1, h2, _, h4⟩ := merge_cluster_invariant [wMergeA, wMergeB]
      wMergeReviews o (by decide) (by decide) ho
    exact ⟨o, rfl, h1, h2, h4⟩

/-- C6: the survivor `_merge_clinic_group` picks is a cluster member of
maximal completeness score (weights: provider ids 10 each, provider ratings
5 each, phone 3, website 3, address 2). -/
theorem merge_survivor_most_complete (clinics : List Clinic)
    (reviews : List Review) (o : MergeOutcome)
    (h : _merge_clinic_group clinics reviews = some o) :
    ∃ s ∈ clinics, o.survivor.id = s.id ∧
      ∀ c ∈ clinics, completeness_score c ≤ completeness_score s := by
  unfold _merge_clinic_group at h
  by_cases hlen : clinics.length < 2
  · rw [if_pos hlen] at h; exact absurd h (by simp)
  rw [if_neg hlen] at h
  rcases hs : sortDescBy completeness_score clinics with _ | ⟨primary, dups⟩
  · rw [hs] at h; exact absurd h (by simp)
  rw [hs] at h
  simp only [Option.some.injEq] at h
  have hperm : List.Perm (primary :: dups) clinics := by
    have := sortDescBy_perm completeness_score clinics
    rwa [hs] at this
  refine ⟨primary, hperm.mem_iff.mp (List.mem_cons_self _ _), ?_, ?_⟩
  · rw [← h]; exact (foldl_mergeStep_spec dups primary [] reviews).1
  · exact sortDescBy_head_max completeness_score clinics primary dups hs

/-- Witness for C6 at a concrete two-record cluster. -/
theorem merge_survivor_most_complete_witness :
    ∃ o, _merge_clinic_group [wMergeA, wMergeB] wMergeReviews = some o ∧
      ∃ s ∈ [wMergeA, wMergeB], o.survivor.id = s.id ∧
        ∀ c ∈ [wMergeA, wMergeB],
          completeness_score c ≤ completeness_score s := by
  rcases ho : _merge_clinic_group [wMergeA, wMergeB] wMergeReviews with _ | o
  · exact absurd ho (by decide)
  · exact ⟨o, rfl, merge_survivor_most_complete _ _ o ho⟩

/-! ## findBestMatch (ClinicMatcher.find_matching_clinic) -/

/-- The scan loop of `ClinicMatcher.find_matching_clinic`: pool records whose
stored ZIP differs from the candidate's are skipped when the prefilter is on
and the candidate's ZIP is truthy; otherwise the best strictly-improving
matching record is kept (so the first record attaining the best score wins). -/
noncomputable def findGo (ratio : String → String → ℚ) (cand : Clinic)
    (szo : Bool) : List Clinic → Option (Clinic × MatchResult) → ℕ →
    Option (Clinic × MatchResult)
  | [], best, _ => best
  | c :: rest, best, bestScore =>
    if szo = true ∧ strTruthy cand.zip_code = true ∧ c.zip_code ≠ cand.zip_code then
      findGo ratio cand szo rest best bestScore
    else if (calculate_match_score ratio cand c).is_match = true ∧
        bestScore < (calculate_match_score ratio cand c).score then
      findGo ratio cand szo rest (some (c, calculate_match_score ratio cand c))
        (calculate_match_score ratio cand c).score
    else findGo ratio cand szo rest best bestScore

/-- `ClinicMatcher.find_matching_clinic`: `(None, None)` when no record is
kept. -/
noncomputable def find_matching_clinic (ratio : String → String → ℚ)
    (cand : Clinic) (pool : List Clinic) (same_zip_only : Bool) :
    Option Clinic × Option MatchResult :=
  match findGo ratio cand same_zip_only pool none 0 with
  | none => (none, none)
  | some (c, r) => (some c, some r)

/-- A match decision implies a score of at least the threshold 50. -/
theorem is_match_score_ge (ratio : String → String → ℚ) (c1 c2 : Clinic)
    (h : (calculate_match_score ratio c1 c2).is_match = true) :
    50 ≤ (calculate_match_score ratio c1 c2).score := by
  have hd : (calculate_match_score ratio c1 c2).is_match =
      decide (50 ≤ (calculate_match_score ratio c1 c2).score) := rfl
  rw [hd] at h
  exact of_decide_eq_true h

/-- Loop invariant of `findGo` with the ZIP prefilter off: a `none` result
means nothing beat the running score; a `some` result is either the untouched
accumulator (nothing qualified) or the first pool record attaining the
maximal qualifying score above the initial one. -/
theorem findGo_characterize (ratio : String → String → ℚ) (cand : Clinic)
    (pool : List Clinic) :
    ∀ (best : Option (Clinic × MatchResult)) (bs : ℕ),
    (findGo ratio cand false pool best bs = none →
      best = none ∧ ∀ d ∈ pool,
        ¬((calculate_match_score ratio cand d).is_match = true ∧
          bs < (calculate_match_score ratio cand d).score)) ∧
    (∀ c r, findGo ratio cand false pool best bs = some (c, r) →
      (best = some (c, r) ∧ ∀ d ∈ pool,
        ¬((calculate_match_score ratio cand d).is_match = true ∧
          bs < (calculate_match_score ratio cand d).score)) ∨
      (bs < r.score ∧ c ∈ pool ∧ r = calculate_match_score ratio cand c ∧
        r.is_match = true ∧
        (∀ d ∈ pool, (calculate_match_score ratio cand d).is_match = true →
          (calculate_match_score ratio cand d).score ≤ r.score) ∧
        ∃ l1 l2, pool = l1 ++ c :: l2 ∧
          ∀ d ∈ l1, (calculate_match_score ratio cand d).is_match = true →
            (calculate_match_score ratio cand d).score < r.score)) := by
  induction pool with
  | nil =>
    intro best bs
    refine ⟨fun h => ⟨by simpa [findGo] using h, by simp⟩, fun c r h => ?_⟩
    left
    exact ⟨by simpa [findGo] using h, by simp⟩
  | cons c0 rest ih =>
    intro best bs
    have hskip : ¬(false = true ∧ strTruthy cand.zip_code = true ∧
        c0.zip_code ≠ cand.zip_code) := by simp
    by_cases hup : (calculate_match_score ratio cand c0).is_match = true ∧
        bs < (calculate_match_score ratio cand c0).score
    · have hred : findGo ratio cand false (c0 :: rest) best bs =
          findGo ratio cand false rest
            (some (c0, calculate_match_score ratio cand c0))
            (calculate_match_score ratio cand c0).score := by
        rw [findGo, if_neg hskip, if_pos hup]
      rw [hred]
      constructor
      · intro h
        rcases (ih _ _).1 h with ⟨hb, _⟩
        exact absurd hb (by simp)
      · intro c r h
        rcases (ih _ _).2 c r h with ⟨hb, hrest⟩ |
          ⟨hlt, hmem, hr, hm, hmax, l1, l2, hsplit, hfirst⟩
        · simp only [Option.some.injEq, Prod.mk.injEq] at hb
          obtain ⟨rfl, rfl⟩ := hb
          right
          refine ⟨hup.2, List.mem_cons_self _ _, rfl, hup.1, ?_,
            [], rest, rfl, by simp⟩
          intro d hd hdm
          rcases List.mem_cons.mp hd with rfl | hd
          · exact le_refl _
          · by_contra hgt
            exact hrest d hd ⟨hdm, lt_of_not_le hgt⟩
        · right
          refine ⟨lt_trans hup.2 hlt, List.mem_cons_of_mem _ hmem, hr, hm, ?_,
            c0 :: l1, l2, by rw [hsplit, List.cons_append], ?_⟩
          · intro d hd hdm
            rcases List.mem_cons.mp hd with rfl | hd
            · exact le_of_lt hlt
            · exact hmax d hd hdm
          · intro d hd hdm
            rcases List.mem_cons.mp hd with rfl | hd
            · exact hlt
            · exact hfirst d hd hdm
    · have hred : findGo ratio cand false (c0 :: rest) best bs =
          findGo ratio cand false rest best bs := by
        rw [findGo, if_neg hskip, if_neg hup]
      rw [hred]
      have hc0 : (calculate_match_score ratio cand c0).is_match = true →
          (calculate_match_score ratio cand c0).score ≤ bs := by
        intro hm0
        by_contra hgt
        exact hup ⟨hm0, lt_of_not_le hgt⟩
      constructor
      · intro h
        rcases (ih best bs).1 h with ⟨hb, hrest⟩
        refine ⟨hb, ?_⟩
        intro d hd
        rcases List.mem_cons.mp hd with rfl | hd
        · exact hup
        · exact hrest d hd
      · intro c r h
        rcases (ih best bs).2 c r h with ⟨hb, hrest⟩ |
          ⟨hlt, hmem, hr, hm, hmax, l1, l2, hsplit, hfirst⟩
        · left
          refine ⟨hb, ?_⟩
          intro d hd
          rcases List.mem_cons.mp hd with rfl | hd
          · exact hup
          · exact hrest d hd
        · right
          refine ⟨hlt, List.mem_cons_of_mem _ hmem, hr, hm, ?_,
            c0 :: l1, l2, by rw [hsplit, List.cons_append], ?_⟩
          · intro d hd hdm
            rcases List.mem_cons.mp hd with rfl | hd
            · exact le_trans (hc0 hdm) (le_of_lt hlt)
            · exact hmax d hd hdm
          · intro d hd hdm
            rcases List.mem_cons.mp hd with rfl | hd
            · exact lt_of_le_of_lt (hc0 hdm) hlt
            · exact hfirst d hd hdm

/-- C3 (amended): with the ZIP prefilter disabled, `find_matching_clinic`
evaluates the candidate against every record of the pool and returns the
highest-scoring record clearing the match threshold, or `(none, none)` when
none clears it; on an exact score tie the record encountered first in pool
iteration order is returned. -/
theorem find_matching_clinic_best (ratio : String → String → ℚ)
    (cand : Clinic) (pool : List Clinic) :
    (find_matching_clinic ratio cand pool false = (none, none) ↔
      ∀ d ∈ pool, (calculate_match_score ratio cand d).is_match = false) ∧
    (∀ c r, find_matching_clinic ratio cand pool false = (some c, some r) →
      c ∈ pool ∧ r = calculate_match_score ratio cand c ∧ r.is_match = true ∧
      (∀ d ∈ pool, (calculate_match_score ratio cand d).is_match = true →
        (calculate_match_score ratio cand d).score ≤ r.score) ∧
      ∃ l1 l2, pool = l1 ++ c :: l2 ∧
        ∀ d ∈ l1, (calculate_match_score ratio cand d).is_match = true →
          (calculate_match_score ratio cand d).score < r.score) := by
  constructor
  · constructor
    · intro h d hd
      rcases hgo : findGo ratio cand false pool none 0 with _ | ⟨c', r'⟩
      · rcases (findGo_characterize ratio cand pool none 0).1 hgo with ⟨_, hall⟩
        have := hall d hd
        by_contra hne
        have hm : (calculate_match_score ratio cand d).is_match = true := by
          revert hne
          cases (calculate_match_score ratio cand d).is_match <;> simp
        exact this ⟨hm, lt_of_lt_of_le (by norm_num)
          (is_match_score_ge ratio cand d hm)⟩
      · rw [find_matching_clinic, hgo] at h
        exact absurd h (by simp)
    · intro hall
      rcases hgo : findGo ratio cand false pool none 0 with _ | ⟨c', r'⟩
      · rw [find_matching_clinic, hgo]
      · rcases (findGo_characterize ratio cand pool none 0).2 c' r' hgo with
          ⟨hb, _⟩ | ⟨_, hmem, hr, hm, _, _⟩
        · exact absurd hb (by simp)
        · rw [hr] at hm
          rw [hall c' hmem] at hm
          exact absurd hm (by simp)
  · intro c r h
    rcases hgo : findGo ratio cand false pool none 0 with _ | ⟨c', r'⟩
    · rw [find_matching_clinic, hgo] at h
      exact absurd h (by simp)
    · rw [find_matching_clinic, hgo] at h
      simp only [Prod.mk.injEq, Option.some.injEq] at h
      obtain ⟨rfl, rfl⟩ := h
      rcases (findGo_characterize ratio cand pool none 0).2 c' r' hgo with
        ⟨hb, _⟩ | ⟨_, hmem, hr, hm, hmax, hfirst⟩
      · exact absurd hb (by simp)
      · exact ⟨hmem, hr, hm, hmax, hfirst⟩

/-- Distance of a point to itself is zero (shared helper). -/
theorem calculate_distance_meters_self (lat lng : ℚ) :
    calculate_distance_meters (some lat) (some lng) (some lat) (some lng) =
      (0 : EReal) := by
  show ((haversineM lat lng lat lng : ℝ) : EReal) = (0 : EReal)
  rw [haversineM_self]
  exact EReal.coe_zero

/-- Concrete records for the C3 counterexample: identical phone digits and
coordinates (score 75, a clear match) but different stored ZIP codes. -/
def wCand : Clinic :=
  { id := 10, name := "clinic", zip_code := some "60601",
    phone := some "3125551234", latitude := some 10, longitude := some 20 }

/-- The pool record the ZIP prefilter hides from `wCand`. -/
def wPooled : Clinic :=
  { id := 11, name := "clinic", zip_code := some "60602",
    phone := some "(312) 555-1234", latitude := some 10, longitude := some 20 }

/-- C3 (counterexample): under the source's default ZIP prefilter
(`same_zip_only=True`), a pool record that clears the threshold with score 75
but stores a different ZIP is never evaluated: `find_matching_clinic` returns
`(none, none)` instead of that highest-scoring record, for every similarity
oracle. -/
theorem find_matching_clinic_zip_counterexample :
    (∀ ratio : String → String → ℚ,
      (calculate_match_score ratio wCand wPooled).is_match = true ∧
      (calculate_match_score ratio wCand wPooled).score = 75) ∧
    (∀ ratio : String → String → ℚ,
      find_matching_clinic ratio wCand [wPooled] true = (none, none)) := by
  have h50 : (0 : EReal) ≤ ((50 : ℝ) : EReal) := by
    rw [← EReal.coe_zero]
    exact EReal.coe_le_coe_iff.mpr (by norm_num)
  have hscore : ∀ ratio : String → String → ℚ,
      (calculate_match_score ratio wCand wPooled).score = 75 := by
    intro ratio
    have hphone : is_phone_match (wCand.phone.getD "") (wPooled.phone.getD "") =
        true := by decide
    have hdist : calculate_distance_meters wCand.latitude wCand.longitude
        wPooled.latitude wPooled.longitude = (0 : EReal) :=
      calculate_distance_meters_self 10 20
    have hname : calculate_name_similarity ratio wCand.name wPooled.name = 0 := by
      simp only [calculate_name_similarity]
      rw [if_pos (Or.inl (by decide))]
    have haddr : calculate_address_similarity ratio (wCand.address.getD "")
        (wPooled.address.getD "") = 0 := by
      simp only [calculate_address_similarity]
      rw [if_pos (Or.inl (by decide))]
    show (if is_phone_match (wCand.phone.getD "") (wPooled.phone.getD "")
        then 40 else 0) +
      (if calculate_distance_meters wCand.latitude wCand.longitude
          wPooled.latitude wPooled.longitude ≤ ((50 : ℝ) : EReal)
        then 35 else 0) +
      (if (3 / 4 : ℚ) ≤ calculate_name_similarity ratio wCand.name wPooled.name
        then 15 else 0) +
      (if (4 / 5 : ℚ) ≤ calculate_address_similarity ratio (wCand.address.getD "")
          (wPooled.address.getD "") then 10 else 0) = 75
    rw [hdist, hname, haddr, if_pos hphone, if_pos h50,
      if_neg (by norm_num : ¬((3 / 4 : ℚ) ≤ 0)),
      if_neg (by norm_num : ¬((4 / 5 : ℚ) ≤ 0))]
  refine ⟨fun ratio => ⟨?_, hscore ratio⟩, fun ratio => ?_⟩
  · have hm : (calculate_match_score ratio wCand wPooled).is_match =
        decide (50 ≤ (calculate_match_score ratio wCand wPooled).score) := rfl
    rw [hm, hscore ratio]
    decide
  · have h1 : findGo ratio wCand true [wPooled] none 0 = none := by
      rw [findGo, if_pos (by decide)]
      rfl
    rw [find_matching_clinic, h1]

/-! ## Imputation Engine (src/utils/zipcode_imputation.py and
src/utils/comprehensive_imputation.py)

The geographic distance (`haversine_distance`) is transcendental, so the
selection logic is stated over an arbitrary distance oracle
`dist : Clinic → Clinic → α` into a linear ordered field; the source-level
instantiation `clinicDist` (the file's haversine over the stored
coordinates) is defined below and used in the concrete counterexamples. -/

/-- Python `str.strip()` on a character list. -/
def trimL (s : List Char) : List Char :=
  ((s.dropWhile Char.isWhitespace).reverse.dropWhile Char.isWhitespace).reverse

/-- Python `needle in haystack` for strings, on character lists. -/
def subList (n : List Char) : List Char → Bool
  | [] => n.isEmpty
  | c :: t => n.isPrefixOf (c :: t) || subList n t

/-- `round(x, 1)` over exact rationals (see the header note on ties):
`Rat.floor` is definitionally Mathlib's `⌊·⌋` on ℚ, and
`⌊10x + 1/2⌋ = round (10x)`. -/
def round1 (x : ℚ) : ℚ := (Rat.floor (10 * x + 1 / 2) : ℚ) / 10

/-- `type_keywords` of `infer_clinic_type_from_name` (insertion order). -/
def type_keywords : List (String × List String) :=
  [("urgent_care", ["urgent", "immediate care", "walk-in", "express clinic",
      "quick care"]),
   ("dental", ["dental", "dentist", "orthodont", "teeth"]),
   ("pediatric", ["pediatric", "children", "kids", "child health"]),
   ("specialty", ["surgery", "plastic", "cosmetic", "dermatology", "cardiology",
      "oncology", "neurology", "orthopedic", "urology", "radiology",
      "ophthalmology", "ent", "ear nose throat", "allergy"]),
   ("mental_health", ["mental health", "counseling", "psychiatr", "therapy",
      "behavioral"]),
   ("womens_health", ["women", "obstetric", "gynecolog", "obgyn", "pregnancy",
      "maternal"]),
   ("physical_therapy", ["physical therapy", "rehab", "physiotherapy",
      "chiropract", "massage"]),
   ("primary_care", ["family", "primary care", "general practice",
      "internal medicine", "medical center", "health center", "clinic",
      "physician"])]

/-- `category_mapping` of `infer_clinic_type_from_categories`. -/
def category_mapping : List (String × List String) :=
  [("urgent_care", ["urgent care", "walk-in clinic", "emergency"]),
   ("dental", ["dentist", "dental", "orthodontist"]),
   ("pediatric", ["pediatrician", "child health", "kids"]),
   ("specialty", ["surgeon", "plastic surgery", "dermatologist", "cardiologist",
      "oncologist", "neurologist", "orthopedist", "urologist",
      "ophthalmologist", "ear nose & throat", "allergist"]),
   ("mental_health", ["counseling", "mental health", "psychiatrist",
      "psychologist", "therapy"]),
   ("womens_health", ["obstetrician", "gynecologist", "obgyn",
      "women\x27s health"]),
   ("physical_therapy", ["physical therapy", "chiropractor", "massage",
      "acupuncture"]),
   ("primary_care", ["family practice", "internal medicine", "medical center",
      "general practitioner", "primary care", "concierge medicine"])]

/-- `infer_clinic_type_from_name`: first taxonomy entry with a keyword
occurring in the lowercased name. -/
def infer_clinic_type_from_name (name : String) : Option String :=
  let nl := lowerL name.data
  (type_keywords.find? (fun p => p.2.any (fun kw => subList kw.data nl))).map
    Prod.fst

/-- `infer_clinic_type_from_categories`: analogous over the joined,
lowercased provider category tags (`None` for an empty tag list). -/
def infer_clinic_type_from_categories (categories : List String) :
    Option String :=
  if categories.isEmpty then none
  else
    let cstr := joinSpaces (categories.map (fun s => lowerL s.data))
    (category_mapping.find? (fun p => p.2.any (fun kw => subList kw.data cstr))).map
      Prod.fst

/-- A `collections.Counter` over strings: counts in first-occurrence order. -/
def counterCounts : List String → List (String × ℕ) → List (String × ℕ)
  | [], acc => acc
  | t :: ts, acc =>
    if (acc.find? (fun e => e.1 == t)).isSome then
      counterCounts ts (acc.map (fun e => if e.1 == t then (e.1, e.2 + 1) else e))
    else counterCounts ts (acc ++ [(t, 1)])

/-- `max` over counter entries by count; the first maximal entry wins, as
`Counter.most_common(1)` does. -/
def pyMaxCount : (String × ℕ) → List (String × ℕ) → String × ℕ
  | b, [] => b
  | b, e :: rest => pyMaxCount (if b.2 < e.2 then e else b) rest

/-- `Counter(types).most_common(1)[0][0]`. -/
def mostCommon (types : List String) : Option String :=
  match counterCounts types [] with
  | [] => none
  | e :: es => some (pyMaxCount e es).1

/-- The stored clinic type read = valid test of `impute_clinic_type`
strategy 3: truthy, non-blank after strip, not a textual null. -/
def typeValid (c : Clinic) : Bool :=
  strTruthy c.clinic_type &&
  decide (trimL ((c.clinic_type.getD "").data) ≠ []) &&
  !((["unknown", "none", "null"].map String.data).contains
      (lowerL (trimL ((c.clinic_type.getD "").data))))

/-- The four stored coordinates two records contribute to a
`haversine_distance` call (call sites guard for truthy coordinates, so the
0-defaults are never observed). -/
def cdist {α : Type} (hav : ℚ → ℚ → ℚ → ℚ → α) (t c : Clinic) : α :=
  hav (t.latitude.getD 0) (t.longitude.getD 0) (c.latitude.getD 0)
    (c.longitude.getD 0)

section Imputation

variable {α : Type} [LinearOrderedField α]
variable (hav : ℚ → ℚ → ℚ → ℚ → α)

/-- The `(clinic, distance)` candidate pairs `find_nearest_zipcode` builds:
neighbours with truthy coordinates and a truthy ZIP, in pool order. -/
def zipCandidates (target : Clinic) (pool : List Clinic) : List (Clinic × α) :=
  (pool.filter (fun c =>
    numTruthy c.latitude && numTruthy c.longitude && strTruthy c.zip_code)).map
    (fun c => (c, cdist hav target c))

/-- The `zip_counts` dict of `find_nearest_zipcode` as an association list in
insertion order: per ZIP, its occurrence count and minimal distance among the
processed neighbours. -/
def zipCounts : List (Clinic × α) → List (String × ℕ × α) → List (String × ℕ × α)
  | [], acc => acc
  | (c, d) :: rest, acc =>
    let z := c.zip_code.getD ""
    if (acc.find? (fun e => e.1 == z)).isSome then
      zipCounts rest (acc.map (fun e =>
        if e.1 == z then (e.1, e.2.1 + 1, min e.2.2 d) else e))
    else
      zipCounts rest (acc ++ [(z, 1, d)])

/-- Python `max(zip_counts.items(), key=λx.(count, -min_distance))`: scan in
insertion order, replace only on a strictly larger key, so the first maximal
entry wins. -/
def pyMaxZip : (String × ℕ × α) → List (String × ℕ × α) → String × ℕ × α
  | b, [] => b
  | b, e :: rest =>
    pyMaxZip (if b.2.1 < e.2.1 ∨ (b.2.1 = e.2.1 ∧ e.2.2 < b.2.2) then e else b) rest

/-- `find_nearest_zipcode` (identical in both imputation modules): `none`
models the Python `(None, None, 0)` return; a `some (z, d, n)` is the Python
`(imputed_zipcode, distance, neighbor_count)`. -/
def find_nearest_zipcode (target : Clinic) (clinics_with_zip : List Clinic)
    (k : ℕ) : Option (String × α × ℕ) :=
  if ¬(numTruthy target.latitude = true ∧ numTruthy target.longitude = true) then
    none
  else
    let distances := zipCandidates hav target clinics_with_zip
    if distances.isEmpty then none
    else
      let nearest := (sortAscBy Prod.snd distances).take k
      match zipCounts nearest [] with
      | [] => none
      | e :: es =>
        let best := pyMaxZip e es
        some (best.1, best.2.2, best.2.1)

/-- The SQL filters of `impute_missing_zipcodes` (`IS NOT NULL` / `!= ''`,
not Python truthiness). -/
def hasZipQ (c : Clinic) : Bool :=
  c.is_active && decide (c.zip_code ≠ none) && decide (c.zip_code ≠ some "") &&
  decide (c.latitude ≠ none) && decide (c.longitude ≠ none)

/-- The SQL filter for the records missing a ZIP. -/
def missingZipQ (c : Clinic) : Bool :=
  c.is_active && (decide (c.zip_code = none) || decide (c.zip_code = some "")) &&
  decide (c.latitude ≠ none) && decide (c.longitude ≠ none)

/-- The body of the per-record loop of `impute_missing_zipcodes`: skip when no
neighbour was found or the winning ZIP's minimal distance exceeds the cap,
otherwise (outside dry-run) store the imputed ZIP. -/
def zipApply (cap : α) (k : ℕ) (withZip : List Clinic) (dry : Bool)
    (c : Clinic) : Clinic :=
  match find_nearest_zipcode hav c withZip k with
  | some (z, d, _) =>
    if cap < d then c else if dry then c else { c with zip_code := some z }
  | none => c

/-- The statistics dict `impute_missing_zipcodes` returns. The detail entries
keep (clinic id, new ZIP, distance, neighbour count); the display-only fields
(name, old value, coordinates) are not modelled. -/
structure ZipStats (α : Type) where
  total_missing : ℕ
  imputed : ℕ
  too_far : ℕ
  no_neighbors : ℕ
  imputation_details : List (ℕ × String × α × ℕ)
  deriving DecidableEq, Repr

/-- `impute_missing_zipcodes` (src/utils/zipcode_imputation.py). The loop is
modelled as a pointwise map because an iteration mutates only its own
target's ZIP, which no other iteration reads: `find_nearest_zipcode` reads
the target's coordinates and the `clinics_with_zip` snapshot, and that
snapshot is disjoint from the missing set. The `imputed` counter increments
only outside dry-run, exactly as in the source. -/
def impute_missing_zipcodes (cap : α) (k : ℕ) (dry_run : Bool)
    (pool : List Clinic) : List Clinic × ZipStats α :=
  let withZip := pool.filter hasZipQ
  let missing := pool.filter missingZipQ
  let results := missing.map (fun c => (c, find_nearest_zipcode hav c withZip k))
  let details := results.filterMap (fun p =>
    match p.2 with
    | some (z, d, n) => if cap < d then none else some (p.1.id, z, d, n)
    | none => none)
  let clinics := pool.map (fun c =>
    if missingZipQ c then zipApply hav cap k withZip dry_run c else c)
  (clinics,
   { total_missing := missing.length,
     imputed := if dry_run then 0 else details.length,
     too_far := (results.filter (fun p =>
       match p.2 with
       | some (_, d, _) => decide (cap < d)
       | none => false)).length,
     no_neighbors := (results.filter (fun p => p.2.isNone)).length,
     imputation_details := details })

/-- `impute_clinic_type`: name keywords, then category keywords, then the
modal type of the 3 nearest same-ZIP neighbours, then `primary_care`. -/
def impute_clinic_type (clinic : Clinic) (all_clinics : List Clinic) :
    String × String :=
  match infer_clinic_type_from_name clinic.name with
  | some t => (t, "name_inference")
  | none =>
    match (if clinic.categories.isEmpty then none
           else infer_clinic_type_from_categories clinic.categories) with
    | some t => (t, "category_inference")
    | none =>
      let knn : Option String :=
        if strTruthy clinic.zip_code = true ∧ numTruthy clinic.latitude = true ∧
            numTruthy clinic.longitude = true then
          let same_zip := all_clinics.filter (fun c =>
            decide (c.zip_code = clinic.zip_code) && typeValid c &&
            numTruthy c.latitude && numTruthy c.longitude &&
            decide (c.id ≠ clinic.id))
          if same_zip.isEmpty then none
          else
            let distances := same_zip.map (fun c => (c, cdist hav clinic c))
            let nearest := (sortAscBy Prod.snd distances).take 3
            mostCommon (nearest.map (fun p => p.1.clinic_type.getD ""))
        else none
      match knn with
      | some t => (t, "knn_same_zip")
      | none => ("primary_care", "fallback_default")

/-- `impute_google_rating`: Yelp proxy (+0.1 capped at 5.0), then same
type+ZIP average, then 5-nearest average, then citywide-by-type, then
citywide, then the constant 4.0; every average rounded to one decimal. -/
def impute_google_rating (clinic : Clinic) (all_clinics : List Clinic) :
    ℚ × String :=
  if numTruthy clinic.yelp_rating then
    (round1 (min 5 (clinic.yelp_rating.getD 0 + 1 / 10)), "yelp_proxy")
  else
    let s2 : Option ℚ :=
      if strTruthy clinic.clinic_type = true ∧ strTruthy clinic.zip_code = true then
        let same := all_clinics.filterMap (fun c =>
          if decide (c.clinic_type = clinic.clinic_type) &&
             decide (c.zip_code = clinic.zip_code) &&
             c.google_rating.isSome && decide (c.id ≠ clinic.id)
          then c.google_rating else none)
        if same.isEmpty then none
        else some (round1 (same.sum / (same.length : ℚ)))
      else none
    match s2 with
    | some v => (v, "avg_same_type_zip")
    | none =>
      let s3 : Option ℚ :=
        if numTruthy clinic.latitude = true ∧ numTruthy clinic.longitude = true then
          let cg := all_clinics.filter (fun c =>
            c.google_rating.isSome && numTruthy c.latitude &&
            numTruthy c.longitude && decide (c.id ≠ clinic.id))
          if cg.isEmpty then none
          else
            let distances := cg.map (fun c => (c, cdist hav clinic c))
            let ratings := ((sortAscBy Prod.snd distances).take 5).map
              (fun p => p.1.google_rating.getD 0)
            some (round1 (ratings.sum / (ratings.length : ℚ)))
        else none
      match s3 with
      | some v => (v, "knn_5_nearest")
      | none =>
        let s4 : Option ℚ :=
          if strTruthy clinic.clinic_type = true then
            let same := all_clinics.filterMap (fun c =>
              if decide (c.clinic_type = clinic.clinic_type) &&
                 c.google_rating.isSome
              then c.google_rating else none)
            if same.isEmpty then none
            else some (round1 (same.sum / (same.length : ℚ)))
          else none
        match s4 with
        | some v => (v, "avg_citywide_type")
        | none =>
          let allg := all_clinics.filterMap (fun c => c.google_rating)
          if allg.isEmpty then (4, "fallback_default")
          else (round1 (allg.sum / (allg.length : ℚ)), "avg_citywide_all")

/-- `impute_yelp_rating`: the symmetric cascade, Google proxy −0.1 floored at
1.0, fallback constant 3.8. -/
def impute_yelp_rating (clinic : Clinic) (all_clinics : List Clinic) :
    ℚ × String :=
  if numTruthy clinic.google_rating then
    (round1 (max 1 (clinic.google_rating.getD 0 - 1 / 10)), "google_proxy")
  else
    let s2 : Option ℚ :=
      if strTruthy clinic.clinic_type = true ∧ strTruthy clinic.zip_code = true then
        let same := all_clinics.filterMap (fun c =>
          if decide (c.clinic_type = clinic.clinic_type) &&
             decide (c.zip_code = clinic.zip_code) &&
             c.yelp_rating.isSome && decide (c.id ≠ clinic.id)
          then c.yelp_rating else none)
        if same.isEmpty then none
        else some (round1 (same.sum / (same.length : ℚ)))
      else none
    match s2 with
    | some v => (v, "avg_same_type_zip")
    | none =>
      let s3 : Option ℚ :=
        if numTruthy clinic.latitude = true ∧ numTruthy clinic.longitude = true then
          let cy := all_clinics.filter (fun c =>
            c.yelp_rating.isSome && numTruthy c.latitude &&
            numTruthy c.longitude && decide (c.id ≠ clinic.id))
          if cy.isEmpty then none
          else
            let distances := cy.map (fun c => (c, cdist hav clinic c))
            let ratings := ((sortAscBy Prod.snd distances).take 5).map
              (fun p => p.1.yelp_rating.getD 0)
            some (round1 (ratings.sum / (ratings.length : ℚ)))
        else none
      match s3 with
      | some v => (v, "knn_5_nearest")
      | none =>
        let s4 : Option ℚ :=
          if strTruthy clinic.clinic_type = true then
            let same := all_clinics.filterMap (fun c =>
              if decide (c.clinic_type = clinic.clinic_type) &&
                 c.yelp_rating.isSome
              then c.yelp_rating else none)
            if same.isEmpty then none
            else some (round1 (same.sum / (same.length : ℚ)))
          else none
        match s4 with
        | some v => (v, "avg_citywide_type")
        | none =>
          let ally := all_clinics.filterMap (fun c => c.yelp_rating)
          if ally.isEmpty then (19 / 5, "fallback_default")
          else (round1 (ally.sum / (ally.length : ℚ)), "avg_citywide_all")

end Imputation

/-- `calculate_rating_category`: fixed breakpoints on the combined rating. -/
def calculate_rating_category : Option ℚ → Option String
  | none => none
  | some r =>
    some (if 4 ≤ r then "Excellent (4.0+)"
      else if 7 / 2 ≤ r then "Good (3.5-4.0)"
      else if 5 / 2 ≤ r then "Medium (2.5-3.5)"
      else "Low (0-2.5)")

/-- The provider ratings Step 5 collects (Python truthiness: a 0.0 rating is
not collected). -/
def presentRatings (c : Clinic) : List ℚ :=
  (if numTruthy c.google_rating then [c.google_rating.getD 0] else []) ++
  (if numTruthy c.yelp_rating then [c.yelp_rating.getD 0] else [])

/-- One record of Step 5 of `run_comprehensive_imputation`: recompute the
combined rating as the rounded mean of the present ratings and the category
from it, writing each only when changed and not in dry-run. -/
def updateCombined (dry : Bool) (c : Clinic) : Clinic :=
  let ratings := presentRatings c
  if ratings.isEmpty then c
  else
    let new_combined := round1 (ratings.sum / (ratings.length : ℚ))
    let c1 := if c.combined_rating ≠ some new_combined ∧ ¬dry = true then
      { c with combined_rating := some new_combined } else c
    let new_category := calculate_rating_category (some new_combined)
    if c1.rating_category ≠ new_category ∧ ¬dry = true then
      { c1 with rating_category := new_category } else c1

/-- Whether Step 5 counts a record as category-updated: the source increments
the counter (in dry-run too) exactly when the stored category differs from
the category of the freshly computed combined rating. -/
def categoryUpdated (c : Clinic) : Bool :=
  !(presentRatings c).isEmpty &&
  decide (c.rating_category ≠ calculate_rating_category
    (some (round1 ((presentRatings c).sum / ((presentRatings c).length : ℚ)))))

/-- The statistics dict of `run_comprehensive_imputation`
(`imputation_details` is initialised empty and never appended to in the
source, so it is not modelled). -/
structure CompStats where
  zip_codes_imputed : ℕ
  clinic_types_imputed : ℕ
  google_ratings_imputed : ℕ
  yelp_ratings_imputed : ℕ
  rating_categories_updated : ℕ
  deriving DecidableEq, Repr

section Pipeline

variable {α : Type} [LinearOrderedField α]
variable (hav : ℚ → ℚ → ℚ → ℚ → α)

/-- Step 1 membership: a truthy ZIP that is non-blank after strip, plus
truthy coordinates. -/
def hasZipC (c : Clinic) : Bool :=
  strTruthy c.zip_code && decide (trimL ((c.zip_code.getD "").data) ≠ []) &&
  numTruthy c.latitude && numTruthy c.longitude

/-- Step 1 membership for the records missing a ZIP. -/
def missingZipC (c : Clinic) : Bool :=
  (!strTruthy c.zip_code || decide (trimL ((c.zip_code.getD "").data) = [])) &&
  numTruthy c.latitude && numTruthy c.longitude

/-- Step 2/3 membership: missing or textually-unknown clinic type. -/
def missingTypeC (c : Clinic) : Bool :=
  !strTruthy c.clinic_type ||
  decide (trimL ((c.clinic_type.getD "").data) = []) ||
  ((["unknown", "none", "null"].map String.data).contains
    (lowerL (trimL ((c.clinic_type.getD "").data))))

/-- The ZIP Step 1 would impute for a record, if any: a truthy result within
5000 m from the 3 nearest of the with-ZIP snapshot. -/
def step1Zip (withZip : List Clinic) (c : Clinic) : Option String :=
  if missingZipC c then
    match find_nearest_zipcode hav c withZip 3 with
    | some (z, d, _) => if z ≠ "" ∧ d ≤ 5000 then some z else none
    | none => none
  else none

/-- Step 1 of `run_comprehensive_imputation` (pointwise, see the note on
`impute_missing_zipcodes`): the updated records and the imputed count, which
the source increments in dry-run too. -/
def compStep1 (dry : Bool) (cs : List Clinic) : List Clinic × ℕ :=
  let withZip := cs.filter hasZipC
  (cs.map (fun c =>
    match step1Zip hav withZip c with
    | some z => if dry then c else { c with zip_code := some z }
    | none => c),
   (cs.filter (fun c => (step1Zip hav withZip c).isSome)).length)

end Pipeline

/-- The indices of the records a comprehensive step targets (gathered up
front, as the source gathers the object list before its loop). -/
def missingIdxs (p : Clinic → Bool) (cs : List Clinic) : List ℕ :=
  (List.range cs.length).filter (fun i =>
    match cs[i]? with
    | some c => p c
    | none => false)

/-- The loop shared by Steps 2-4: each iteration reads the then-current
record list (earlier writes are visible to later iterations through Python's
live object references) and, outside dry-run, rewrites one record. -/
def imputeFold (F : Clinic → List Clinic → Clinic) (dry : Bool)
    (idxs : List ℕ) (cs : List Clinic) : List Clinic :=
  idxs.foldl (fun st i =>
    match st[i]? with
    | some c => if dry then st else st.set i (F c st)
    | none => st) cs

section Pipeline2

variable {α : Type} [LinearOrderedField α]
variable (hav : ℚ → ℚ → ℚ → ℚ → α)

/-- Step 2: clinic types; the count is unconditional. -/
def compStep2 (dry : Bool) (cs : List Clinic) : List Clinic × ℕ :=
  (imputeFold (fun c st =>
      { c with clinic_type := some (impute_clinic_type hav c st).1 })
    dry (missingIdxs missingTypeC cs) cs,
   (missingIdxs missingTypeC cs).length)

/-- Step 3: Google ratings; the target test is `is None`, not truthiness. -/
def compStep3 (dry : Bool) (cs : List Clinic) : List Clinic × ℕ :=
  (imputeFold (fun c st =>
      { c with google_rating := some (impute_google_rating hav c st).1 })
    dry (missingIdxs (fun c => c.google_rating.isNone) cs) cs,
   (missingIdxs (fun c => c.google_rating.isNone) cs).length)

/-- Step 4: Yelp ratings. -/
def compStep4 (dry : Bool) (cs : List Clinic) : List Clinic × ℕ :=
  (imputeFold (fun c st =>
      { c with yelp_rating := some (impute_yelp_rating hav c st).1 })
    dry (missingIdxs (fun c => c.yelp_rating.isNone) cs) cs,
   (missingIdxs (fun c => c.yelp_rating.isNone) cs).length)

/-- Step 5 (pointwise: a record's recompute reads and writes only itself). -/
def compStep5 (dry : Bool) (cs : List Clinic) : List Clinic × ℕ :=
  (cs.map (updateCombined dry), (cs.filter categoryUpdated).length)

/-- `run_comprehensive_imputation`: the five steps in sequence over the
selected record set, returning the updated records and the statistics. -/
def run_comprehensive_imputation (dry include_inactive : Bool)
    (pool : List Clinic) : List Clinic × CompStats :=
  let cs := if include_inactive then pool else pool.filter (fun c => c.is_active)
  let r1 := compStep1 hav dry cs
  let r2 := compStep2 hav dry r1.1
  let r3 := compStep3 hav dry r2.1
  let r4 := compStep4 hav dry r3.1
  let r5 := compStep5 dry r4.1
  (r5.1, ⟨r1.2, r2.2, r3.2, r4.2, r5.2⟩)

end Pipeline2

/-- `haversine_distance` of the imputation modules (the `asin` form of the
haversine, radius 6371000 m). -/
noncomputable def haversineZ (lat1 lon1 lat2 lon2 : ℝ) : ℝ :=
  let lat1' := lat1 * Real.pi / 180
  let lon1' := lon1 * Real.pi / 180
  let lat2' := lat2 * Real.pi / 180
  let lon2' := lon2 * Real.pi / 180
  let dlat := lat2' - lat1'
  let dlon := lon2' - lon1'
  let a := Real.sin (dlat / 2) ^ 2 +
    Real.cos lat1' * Real.cos lat2' * Real.sin (dlon / 2) ^ 2
  let c := 2 * Real.arcsin (Real.sqrt a)
  c * 6371000

/-- The distance function the imputation modules actually use, over the
stored rational coordinates. -/
noncomputable def havSrc (lat1 lon1 lat2 lon2 : ℚ) : ℝ :=
  haversineZ (lat1 : ℝ) (lon1 : ℝ) (lat2 : ℝ) (lon2 : ℝ)

/-! ## C5 and C10 -/

/-- C5: a record holding a (truthy) Yelp rating gets its Google rating
imputed as `round(min(5.0, yelp + 0.1), 1)` with method `yelp_proxy`,
whatever peer data the pool holds — the cross-provider proxy precedes the
peer-group strategies; symmetrically, a record holding a Google rating gets
its Yelp rating imputed as `round(max(1.0, google − 0.1), 1)` with method
`google_proxy`. -/
theorem impute_rating_cross_proxy {α : Type} [LinearOrderedField α]
    (hav : ℚ → ℚ → ℚ → ℚ → α) (pool : List Clinic) (c1 c2 : Clinic)
    (y g : ℚ) (h1 : c1.yelp_rating = some y) (h10 : y ≠ 0)
    (h2 : c2.google_rating = some g) (h20 : g ≠ 0) :
    impute_google_rating hav c1 pool =
      (round1 (min 5 (y + 1 / 10)), "yelp_proxy") ∧
    impute_yelp_rating hav c2 pool =
      (round1 (max 1 (g - 1 / 10)), "google_proxy") := by
  constructor
  · have ht : numTruthy c1.yelp_rating = true := by
      rw [h1]; simp [numTruthy, h10]
    rw [impute_google_rating, if_pos ht, h1]
    rfl
  · have ht : numTruthy c2.google_rating = true := by
      rw [h2]; simp [numTruthy, h20]
    rw [impute_yelp_rating, if_pos ht, h2]
    rfl

/-- Concrete records for the C5 witness. -/
def wProxyG : Clinic := { id := 50, name := "P", yelp_rating := some 4 }

/-- The Yelp-side record of the C5 witness — it also serves as non-trivial
peer data in the other record's pool. -/
def wProxyY : Clinic := { id := 51, name := "Q", google_rating := some 4 }

/-- Witness for C5 at concrete records and a dummy metric. -/
theorem impute_rating_cross_proxy_witness :
    impute_google_rating (fun _ _ _ _ => (0 : ℚ)) wProxyG [wProxyY] =
      (round1 (min 5 (4 + 1 / 10)), "yelp_proxy") ∧
    impute_yelp_rating (fun _ _ _ _ => (0 : ℚ)) wProxyY [wProxyY] =
      (round1 (max 1 (4 - 1 / 10)), "google_proxy") :=
  impute_rating_cross_proxy (fun _ _ _ _ => (0 : ℚ)) [wProxyY] wProxyG wProxyY 4 4
    rfl (by norm_num) rfl (by norm_num)

/-- C10: a stored numeric 0.0 behaves as an absent value throughout the
public operations: it earns no completeness points in survivor ranking,
contributes nothing to the combined-rating mean, does not fire the
cross-provider proxy, makes ZIP nearest-neighbour imputation bail out when it
is a coordinate, and coordinate gap-filling during merge neither fills from a
0.0 coordinate nor protects one. -/
theorem zero_numeric_fields_behave_as_absent {α : Type}
    [LinearOrderedField α] (hav : ℚ → ℚ → ℚ → ℚ → α) :
    (∀ c : Clinic,
      completeness_score { c with google_rating := some 0 } =
        completeness_score { c with google_rating := none } ∧
      completeness_score { c with yelp_rating := some 0 } =
        completeness_score { c with yelp_rating := none }) ∧
    (∀ c : Clinic,
      presentRatings { c with google_rating := some 0 } =
        presentRatings { c with google_rating := none } ∧
      presentRatings { c with yelp_rating := some 0 } =
        presentRatings { c with yelp_rating := none }) ∧
    (∀ (c : Clinic) (pool : List Clinic),
      impute_google_rating hav { c with yelp_rating := some 0 } pool =
        impute_google_rating hav { c with yelp_rating := none } pool) ∧
    (∀ (c : Clinic) (pool : List Clinic) (k : ℕ),
      find_nearest_zipcode hav { c with latitude := some 0 } pool k = none) ∧
    (∀ p d : Clinic, d.latitude = some 0 →
      (mergeGaps p d).latitude = p.latitude ∧
      (mergeGaps p d).longitude = p.longitude) ∧
    (∀ p d : Clinic, p.latitude = some 0 → numTruthy d.latitude = true →
      (mergeGaps p d).latitude = d.latitude ∧
      (mergeGaps p d).longitude = d.longitude) := by
  refine ⟨?_, ?_, ?_, ?_, ?_, ?_⟩
  · intro c
    constructor <;> simp [completeness_score, numTruthy]
  · intro c
    constructor <;> simp [presentRatings, numTruthy]
  · intro c pool
    rw [impute_google_rating, impute_google_rating,
      if_neg (show ¬(numTruthy ({ c with yelp_rating := some 0 } : Clinic).yelp_rating
        = true) by simp [numTruthy]),
      if_neg (show ¬(numTruthy ({ c with yelp_rating := none } : Clinic).yelp_rating
        = true) by simp [numTruthy])]
    simp [cdist]
  · intro c pool k
    rw [find_nearest_zipcode, if_pos (by simp [numTruthy])]
  · intro p d hd
    have h0 : numTruthy (some (0 : ℚ)) = false := by simp [numTruthy]
    constructor <;>
      simp [mergeGaps, apply_ite Clinic.latitude, apply_ite Clinic.longitude,
        hd, h0]
  · intro p d hp hd
    have h0 : numTruthy (some (0 : ℚ)) = false := by simp [numTruthy]
    constructor <;>
      simp [mergeGaps, apply_ite Clinic.latitude, apply_ite Clinic.longitude,
        hp, hd, h0]

/-! ## C8: the aggregate-rating recompute -/

/-- `round1` is monotone. -/
theorem round1_mono {x y : ℚ} (h : x ≤ y) : round1 x ≤ round1 y := by
  show ((⌊10 * x + 1 / 2⌋ : ℤ) : ℚ) / 10 ≤ ((⌊10 * y + 1 / 2⌋ : ℤ) : ℚ) / 10
  have hf : ⌊10 * x + 1 / 2⌋ ≤ ⌊10 * y + 1 / 2⌋ :=
    Int.floor_le_floor (by linarith)
  have hc : ((⌊10 * x + 1 / 2⌋ : ℤ) : ℚ) ≤ ((⌊10 * y + 1 / 2⌋ : ℤ) : ℚ) :=
    Int.cast_le.mpr hf
  linarith

/-- `round1` fixes every integer multiple of one tenth. -/
theorem round1_tenth (n : ℤ) : round1 ((n : ℚ) / 10) = (n : ℚ) / 10 := by
  show ((⌊10 * ((n : ℚ) / 10) + 1 / 2⌋ : ℤ) : ℚ) / 10 = (n : ℚ) / 10
  have h1 : 10 * ((n : ℚ) / 10) + 1 / 2 = 1 / 2 + (n : ℚ) := by ring
  rw [h1]
  have h2 : ⌊(1 / 2 : ℚ) + (n : ℚ)⌋ = ⌊(1 / 2 : ℚ)⌋ + n := Int.floor_add_int _ _
  have h3 : ⌊(1 / 2 : ℚ)⌋ = 0 := by norm_num
  rw [h2, h3, zero_add]

/-- A nonempty list over a linear order has a least element. -/
theorem exists_min_elt {β : Type} [LinearOrder β] (l : List β) (h : l ≠ []) :
    ∃ x ∈ l, ∀ y ∈ l, x ≤ y := by
  induction l with
  | nil => exact absurd rfl h
  | cons a t ih =>
    rcases ht : t with _ | ⟨b, t'⟩
    · exact ⟨a, List.mem_cons_self _ _, by simp⟩
    · rw [← ht]
      obtain ⟨x, hx, hmin⟩ := ih (by rw [ht]; simp)
      by_cases hax : a ≤ x
      · refine ⟨a, List.mem_cons_self _ _, ?_⟩
        intro y hy
        rcases List.mem_cons.mp hy with rfl | hy
        · exact le_refl _
        · exact le_trans hax (hmin y hy)
      · refine ⟨x, List.mem_cons_of_mem _ hx, ?_⟩
        intro y hy
        rcases List.mem_cons.mp hy with rfl | hy
        · exact le_of_lt (lt_of_not_le hax)
        · exact hmin y hy

/-- A nonempty list over a linear order has a greatest element. -/
theorem exists_max_elt {β : Type} [LinearOrder β] (l : List β) (h : l ≠ []) :
    ∃ x ∈ l, ∀ y ∈ l, y ≤ x := by
  induction l with
  | nil => exact absurd rfl h
  | cons a t ih =>
    rcases ht : t with _ | ⟨b, t'⟩
    · exact ⟨a, List.mem_cons_self _ _, by simp⟩
    · rw [← ht]
      obtain ⟨x, hx, hmax⟩ := ih (by rw [ht]; simp)
      by_cases hax : x ≤ a
      · refine ⟨a, List.mem_cons_self _ _, ?_⟩
        intro y hy
        rcases List.mem_cons.mp hy with rfl | hy
        · exact le_refl _
        · exact le_trans (hmax y hy) hax
      · refine ⟨x, List.mem_cons_of_mem _ hx, ?_⟩
        intro y hy
        rcases List.mem_cons.mp hy with rfl | hy
        · exact le_of_lt (lt_of_not_le hax)
        · exact hmax y hy

theorem mul_length_le_sum (l : List ℚ) (x : ℚ) (h : ∀ y ∈ l, x ≤ y) :
    x * l.length ≤ l.sum := by
  induction l with
  | nil => simp
  | cons a t ih =>
    have ha := h a (List.mem_cons_self _ _)
    have ht := ih (fun y hy => h y (List.mem_cons_of_mem _ hy))
    simp only [List.sum_cons, List.length_cons]
    push_cast
    linarith

theorem sum_le_mul_length (l : List ℚ) (x : ℚ) (h : ∀ y ∈ l, y ≤ x) :
    l.sum ≤ x * l.length := by
  induction l with
  | nil => simp
  | cons a t ih =>
    have ha := h a (List.mem_cons_self _ _)
    have ht := ih (fun y hy => h y (List.mem_cons_of_mem _ hy))
    simp only [List.sum_cons, List.length_cons]
    push_cast
    linarith

/-- What C8 (amended) asserts of one record after the Step-5 recompute. -/
def CombinedHullSpec (c : Clinic) : Prop :=
  (updateCombined false c).combined_rating =
    some (round1 ((presentRatings c).sum / ((presentRatings c).length : ℚ))) ∧
  (∃ x ∈ presentRatings c,
    x ≤ round1 ((presentRatings c).sum / ((presentRatings c).length : ℚ))) ∧
  (∃ x ∈ presentRatings c,
    round1 ((presentRatings c).sum / ((presentRatings c).length : ℚ)) ≤ x) ∧
  ∀ cs : List Clinic, (compStep5 false cs).1 = cs.map (updateCombined false)

/-- C8 (amended): after the Step-5 recompute, a record with at least one
present provider rating stores the one-decimal-rounded mean of its present
ratings, and — provided every contributing rating is an integer multiple of
0.1, as provider ratings are — the stored value lies within the convex hull
of the contributing ratings. -/
theorem combined_rating_mean_and_hull (c : Clinic)
    (hne : presentRatings c ≠ [])
    (htenth : ∀ x ∈ presentRatings c, ∃ n : ℤ, x = (n : ℚ) / 10) :
    CombinedHullSpec c := by
  have hF : (presentRatings c).isEmpty = false := by
    rcases hl : presentRatings c with _ | ⟨a, l⟩
    · exact absurd hl hne
    · rfl
  have hlen : 0 < ((presentRatings c).length : ℚ) := by
    rcases hl : presentRatings c with _ | ⟨a, l⟩
    · exact absurd hl hne
    · have := Nat.cast_nonneg (α := ℚ) l.length
      simp only [hl, List.length_cons]
      push_cast
      linarith
  refine ⟨?_, ?_, ?_, fun cs => rfl⟩
  · unfold updateCombined
    rw [if_neg (by simp [hF])]
    dsimp only
    set NEW := round1 ((presentRatings c).sum / ((presentRatings c).length : ℚ))
      with hNEW
    have h1 : (if c.combined_rating ≠ some NEW ∧ ¬false = true then
        { c with combined_rating := some NEW } else c).combined_rating =
        some NEW := by
      by_cases hA : c.combined_rating = some NEW
      · rw [if_neg (by simp [hA])]
        exact hA
      · rw [if_pos ⟨hA, by simp⟩]
    rw [apply_ite Clinic.combined_rating]
    dsimp only
    rw [ite_self]
    exact h1
  · obtain ⟨x, hx, hmin⟩ := exists_min_elt (presentRatings c) hne
    obtain ⟨n, rfl⟩ := htenth x hx
    refine ⟨(n : ℚ) / 10, hx, ?_⟩
    calc ((n : ℚ) / 10) = round1 ((n : ℚ) / 10) := (round1_tenth n).symm
      _ ≤ _ := round1_mono (by
          rw [le_div_iff₀ hlen]
          exact mul_length_le_sum _ _ hmin)
  · obtain ⟨x, hx, hmax⟩ := exists_max_elt (presentRatings c) hne
    obtain ⟨n, rfl⟩ := htenth x hx
    refine ⟨(n : ℚ) / 10, hx, ?_⟩
    calc round1 ((presentRatings c).sum / ((presentRatings c).length : ℚ))
        ≤ round1 ((n : ℚ) / 10) := round1_mono (by
          rw [div_le_iff₀ hlen]
          exact sum_le_mul_length _ _ hmax)
      _ = (n : ℚ) / 10 := round1_tenth n

/-- Concrete record for the C8 witness: ratings 4.0 and 3.5, mean 3.75,
stored value 3.8 — inside the hull. -/
def wMeanClinic : Clinic :=
  { id := 31, name := "M", google_rating := some 4, yelp_rating := some (7 / 2) }

unseal Rat.mul Rat.inv Rat.add Rat.sub in
/-- Witness for C8 (amended) at a concrete record. -/
theorem combined_rating_mean_and_hull_witness : CombinedHullSpec wMeanClinic := by
  have hl : presentRatings wMeanClinic = [4, 7 / 2] := by decide
  refine combined_rating_mean_and_hull wMeanClinic (by rw [hl]; simp) ?_
  rw [hl]
  intro x hx
  rcases List.mem_cons.mp hx with rfl | hx
  · exact ⟨40, by norm_num⟩
  · rcases List.mem_cons.mp hx with rfl | hx
    · exact ⟨35, by norm_num⟩
    · exact absurd hx (by simp)

/-- Concrete record for the C8 counterexample: ratings 4.22 and 4.24. -/
def wHullClinic : Clinic :=
  { id := 30, name := "H", google_rating := some (211 / 50),
    yelp_rating := some (106 / 25) }

unseal Rat.mul Rat.inv Rat.add Rat.sub in
/-- C8 (counterexample): with contributing ratings 4.22 and 4.24 the stored
combined rating is `round(4.23, 1) = 4.2`, strictly below every contributing
rating — outside their convex hull. -/
theorem combined_rating_hull_counterexample :
    (updateCombined false wHullClinic).combined_rating = some (21 / 5) ∧
    ∀ x ∈ presentRatings wHullClinic, (21 / 5 : ℚ) < x := by decide

/-! ## C9: dry-run semantics -/

theorem map_id_of_eq {β : Type} (f : β → β) (l : List β)
    (h : ∀ x ∈ l, f x = x) : l.map f = l :=
  (List.map_congr_left h).trans (List.map_id l)

theorem foldl_id {β γ : Type} (f : β → γ → β) (hf : ∀ s i, f s i = s) :
    ∀ (l : List γ) (s : β), l.foldl f s = s := by
  intro l
  induction l with
  | nil => intro s; rfl
  | cons a t ih =>
    intro s
    rw [List.foldl_cons, hf]
    exact ih s

theorem zipApply_dry {α : Type} [LinearOrderedField α]
    (hav : ℚ → ℚ → ℚ → ℚ → α) (cap : α) (k : ℕ) (wz : List Clinic)
    (c : Clinic) : zipApply hav cap k wz true c = c := by
  unfold zipApply
  rcases hf : find_nearest_zipcode hav c wz k with _ | ⟨z, d, n⟩ <;> simp [hf]

theorem imputeFold_dry (F : Clinic → List Clinic → Clinic) (idxs : List ℕ)
    (cs : List Clinic) : imputeFold F true idxs cs = cs := by
  refine foldl_id _ ?_ idxs cs
  intro s i
  rcases hg : s[i]? with _ | c <;> simp [hg]

theorem updateCombined_dry (c : Clinic) : updateCombined true c = c := by
  unfold updateCombined
  dsimp only
  split
  · rfl
  · rw [if_neg (by simp), if_neg (by simp)]

theorem compStep1_dry {α : Type} [LinearOrderedField α]
    (hav : ℚ → ℚ → ℚ → ℚ → α) (cs : List Clinic) :
    (compStep1 hav true cs).1 = cs := by
  refine map_id_of_eq _ _ (fun c _ => ?_)
  rcases hz : step1Zip hav (cs.filter hasZipC) c with _ | z <;> simp [hz]

theorem compStep2_dry {α : Type} [LinearOrderedField α]
    (hav : ℚ → ℚ → ℚ → ℚ → α) (cs : List Clinic) :
    (compStep2 hav true cs).1 = cs := imputeFold_dry _ _ _

theorem compStep3_dry {α : Type} [LinearOrderedField α]
    (hav : ℚ → ℚ → ℚ → ℚ → α) (cs : List Clinic) :
    (compStep3 hav true cs).1 = cs := imputeFold_dry _ _ _

theorem compStep4_dry {α : Type} [LinearOrderedField α]
    (hav : ℚ → ℚ → ℚ → ℚ → α) (cs : List Clinic) :
    (compStep4 hav true cs).1 = cs := imputeFold_dry _ _ _

theorem compStep5_dry (cs : List Clinic) : (compStep5 true cs).1 = cs :=
  map_id_of_eq _ _ (fun c _ => updateCombined_dry c)

/-- Two record lists of the same length that agree pointwise under a Boolean
projection. -/
abbrev boolAgree (p : Clinic → Bool) (l1 l2 : List Clinic) : Prop :=
  l1.length = l2.length ∧ ∀ j : ℕ, (l1[j]?).map p = (l2[j]?).map p

theorem boolAgree_refl (p : Clinic → Bool) (l : List Clinic) :
    boolAgree p l l := ⟨rfl, fun _ => rfl⟩

theorem boolAgree_trans {p : Clinic → Bool} {a b c : List Clinic}
    (h1 : boolAgree p a b) (h2 : boolAgree p b c) : boolAgree p a c :=
  ⟨h1.1.trans h2.1, fun j => (h1.2 j).trans (h2.2 j)⟩

theorem missingIdxs_congr (p : Clinic → Bool) (l1 l2 : List Clinic)
    (h : boolAgree p l1 l2) : missingIdxs p l1 = missingIdxs p l2 := by
  obtain ⟨hlen, hp⟩ := h
  unfold missingIdxs
  rw [hlen]
  refine List.filter_congr (fun i _ => ?_)
  have hpi := hp i
  cases hl1 : l1[i]? with
  | none =>
    cases hl2 : l2[i]? with
    | none => rfl
    | some d =>
      rw [hl1, hl2] at hpi
      exact absurd hpi (by simp)
  | some c =>
    cases hl2 : l2[i]? with
    | none =>
      rw [hl1, hl2] at hpi
      exact absurd hpi (by simp)
    | some d =>
      rw [hl1, hl2] at hpi
      have hcd : p c = p d := by simpa using hpi
      exact hcd

theorem map_proj_agree (p : Clinic → Bool) (f : Clinic → Clinic)
    (hf : ∀ c, p (f c) = p c) (l : List Clinic) : boolAgree p (l.map f) l := by
  refine ⟨by simp, fun j => ?_⟩
  rw [List.getElem?_map]
  rcases l[j]? with _ | c <;> simp [hf]

theorem set_agree (p : Clinic → Bool) (cs : List Clinic) (i : ℕ) (c e : Clinic)
    (hg : cs[i]? = some c) (he : p e = p c) :
    boolAgree p (cs.set i e) cs := by
  refine ⟨by simp, fun j => ?_⟩
  by_cases hij : i = j
  · subst hij
    rw [List.getElem?_set_self', hg]
    simp [he]
  · rw [List.getElem?_set_ne hij]

theorem imputeFold_agree (p : Clinic → Bool) (F : Clinic → List Clinic → Clinic)
    (dry : Bool) (hF : ∀ c st, p (F c st) = p c) (idxs : List ℕ) :
    ∀ cs, boolAgree p (imputeFold F dry idxs cs) cs := by
  induction idxs with
  | nil => intro cs; exact boolAgree_refl p cs
  | cons i t ih =>
    intro cs
    have hbody : boolAgree p (match cs[i]? with
        | some c => if dry then cs else cs.set i (F c cs)
        | none => cs) cs := by
      rcases hg : cs[i]? with _ | c
      · exact boolAgree_refl p cs
      · rcases dry with _ | _
        · exact set_agree p cs i c _ hg (hF c cs)
        · exact boolAgree_refl p cs
    exact boolAgree_trans (ih _) hbody

set_option maxHeartbeats 1600000 in
/-- C9 (amended): a dry run modifies no record; for the ZIP-imputation
module its statistics equal the non-dry statistics except that the `imputed`
counter reads 0 (the non-dry counter being the length of the detail list);
for the comprehensive run the four per-attribute imputed counts equal the
non-dry run's (while `rating_categories_updated` is computed against the
un-persisted state — see the counterexample). -/
theorem dry_run_behaviour {α : Type} [LinearOrderedField α]
    (hav : ℚ → ℚ → ℚ → ℚ → α) (cap : α) (k : ℕ) (incl : Bool)
    (pool : List Clinic) :
    (impute_missing_zipcodes hav cap k true pool).1 = pool ∧
    (impute_missing_zipcodes hav cap k true pool).2 =
      { (impute_missing_zipcodes hav cap k false pool).2 with imputed := 0 } ∧
    (impute_missing_zipcodes hav cap k false pool).2.imputed =
      ((impute_missing_zipcodes hav cap k false pool).2.imputation_details).length ∧
    (run_comprehensive_imputation hav true incl pool).1 =
      (if incl then pool else pool.filter (fun c => c.is_active)) ∧
    (run_comprehensive_imputation hav true incl pool).2.zip_codes_imputed =
      (run_comprehensive_imputation hav false incl pool).2.zip_codes_imputed ∧
    (run_comprehensive_imputation hav true incl pool).2.clinic_types_imputed =
      (run_comprehensive_imputation hav false incl pool).2.clinic_types_imputed ∧
    (run_comprehensive_imputation hav true incl pool).2.google_ratings_imputed =
      (run_comprehensive_imputation hav false incl pool).2.google_ratings_imputed ∧
    (run_comprehensive_imputation hav true incl pool).2.yelp_ratings_imputed =
      (run_comprehensive_imputation hav false incl pool).2.yelp_ratings_imputed := by
  set cs := (if incl then pool else pool.filter (fun c => c.is_active)) with hcs
  have hs1w : ∀ p : Clinic → Bool,
      (∀ c z, p { c with zip_code := some z } = p c) →
      boolAgree p ((compStep1 hav false cs).1) cs := by
    intro p hp
    refine map_proj_agree p _ ?_ cs
    intro c
    rcases hz : step1Zip hav (cs.filter hasZipC) c with _ | z <;> simp [hz, hp]
  have hTw : boolAgree missingTypeC ((compStep1 hav false cs).1) cs :=
    hs1w missingTypeC (fun c z => rfl)
  have hGw1 : boolAgree (fun c => c.google_rating.isNone)
      ((compStep1 hav false cs).1) cs :=
    hs1w _ (fun c z => rfl)
  have hYw1 : boolAgree (fun c => c.yelp_rating.isNone)
      ((compStep1 hav false cs).1) cs :=
    hs1w _ (fun c z => rfl)
  have hGw2 : boolAgree (fun c => c.google_rating.isNone)
      ((compStep2 hav false (compStep1 hav false cs).1).1)
      ((compStep1 hav false cs).1) :=
    imputeFold_agree (fun c => c.google_rating.isNone)
      (fun c st => { c with clinic_type := some (impute_clinic_type hav c st).1 })
      false (fun c st => rfl) _ _
  have hYw2 : boolAgree (fun c => c.yelp_rating.isNone)
      ((compStep2 hav false (compStep1 hav false cs).1).1)
      ((compStep1 hav false cs).1) :=
    imputeFold_agree (fun c => c.yelp_rating.isNone)
      (fun c st => { c with clinic_type := some (impute_clinic_type hav c st).1 })
      false (fun c st => rfl) _ _
  have hYw3 : boolAgree (fun c => c.yelp_rating.isNone)
      ((compStep3 hav false (compStep2 hav false (compStep1 hav false cs).1).1).1)
      ((compStep2 hav false (compStep1 hav false cs).1).1) :=
    imputeFold_agree (fun c => c.yelp_rating.isNone)
      (fun c st => { c with google_rating := some (impute_google_rating hav c st).1 })
      false (fun c st => rfl) _ _
  refine ⟨?_, rfl, rfl, ?_, rfl, ?_, ?_, ?_⟩
  · show pool.map _ = pool
    refine map_id_of_eq _ _ (fun c _ => ?_)
    by_cases hm : missingZipQ c = true
    · rw [if_pos hm, zipApply_dry]
    · rw [if_neg hm]
  · show (compStep5 true (compStep4 hav true (compStep3 hav true
      (compStep2 hav true (compStep1 hav true cs).1).1).1).1).1 = cs
    rw [compStep1_dry, compStep2_dry, compStep3_dry, compStep4_dry,
      compStep5_dry]
  · show (missingIdxs missingTypeC (compStep1 hav true cs).1).length =
      (missingIdxs missingTypeC (compStep1 hav false cs).1).length
    rw [compStep1_dry, missingIdxs_congr missingTypeC _ _ hTw]
  · show (missingIdxs (fun c => c.google_rating.isNone)
        (compStep2 hav true (compStep1 hav true cs).1).1).length =
      (missingIdxs (fun c => c.google_rating.isNone)
        (compStep2 hav false (compStep1 hav false cs).1).1).length
    rw [compStep1_dry, compStep2_dry,
      missingIdxs_congr _ _ _ (boolAgree_trans hGw2 hGw1)]
  · show (missingIdxs (fun c => c.yelp_rating.isNone)
        (compStep3 hav true (compStep2 hav true (compStep1 hav true cs).1).1).1).length =
      (missingIdxs (fun c => c.yelp_rating.isNone)
        (compStep3 hav false (compStep2 hav false (compStep1 hav false cs).1).1).1).length
    rw [compStep1_dry, compStep2_dry, compStep3_dry,
      missingIdxs_congr _ _ _ (boolAgree_trans hYw3 (boolAgree_trans hYw2 hYw1))]

/-- Concrete record for the C9 counterexample: nothing to impute except both
ratings, so the dry and the non-dry run disagree on
`rating_categories_updated`. -/
def wDryClinic : Clinic :=
  { id := 40, name := "D", zip_code := some "60601", clinic_type := some "dental" }

unseal Rat.mul Rat.inv Rat.add Rat.sub in
/-- C9 (counterexample): on a one-record set missing both provider ratings,
the dry run reports `rating_categories_updated = 0` (the ratings were never
persisted, so Step 5 sees none) while the non-dry run reports 1 — the
returned statistics differ between the two modes. -/
theorem dry_run_stats_counterexample :
    (run_comprehensive_imputation havSrc true true [wDryClinic]).2 ≠
    (run_comprehensive_imputation havSrc false true [wDryClinic]).2 := by decide

/-! ## C4: K-nearest-neighbour ZIP imputation -/

/-- The order Python's `max(zip_counts.items(), key=λx.(count, -min_distance))`
maximises: more occurrences, or equally many at a not-larger minimal
distance. -/
def zleEntry {α : Type} [LinearOrderedField α] (x y : String × ℕ × α) : Prop :=
  x.2.1 < y.2.1 ∨ (x.2.1 = y.2.1 ∧ y.2.2 ≤ x.2.2)

theorem zleEntry_trans {α : Type} [LinearOrderedField α]
    {x y z : String × ℕ × α} (h1 : zleEntry x y) (h2 : zleEntry y z) :
    zleEntry x z := by
  rcases h1 with h1 | ⟨h1, h1'⟩ <;> rcases h2 with h2 | ⟨h2, h2'⟩
  · exact Or.inl (h1.trans h2)
  · exact Or.inl (h2 ▸ h1)
  · exact Or.inl (h1.symm ▸ h2)
  · exact Or.inr ⟨h1.trans h2, h2'.trans h1'⟩

theorem pyMaxZip_mem_max {α : Type} [LinearOrderedField α]
    (l : List (String × ℕ × α)) : ∀ b : String × ℕ × α,
    pyMaxZip b l ∈ b :: l ∧ ∀ e ∈ b :: l, zleEntry e (pyMaxZip b l) := by
  induction l with
  | nil =>
    intro b
    refine ⟨List.mem_singleton_self b, fun e he => ?_⟩
    rw [List.mem_singleton] at he
    subst he
    exact Or.inr ⟨rfl, le_refl _⟩
  | cons a t ih =>
    intro b
    by_cases hc : b.2.1 < a.2.1 ∨ (b.2.1 = a.2.1 ∧ a.2.2 < b.2.2)
    · rw [pyMaxZip, if_pos hc]
      obtain ⟨hmem, hmax⟩ := ih a
      have hba : zleEntry b a := by
        rcases hc with hc | ⟨hc, hc'⟩
        · exact Or.inl hc
        · exact Or.inr ⟨hc, le_of_lt hc'⟩
      refine ⟨List.mem_cons_of_mem b hmem, fun e he => ?_⟩
      rcases List.mem_cons.1 he with he | he
      · subst he
        exact zleEntry_trans hba (hmax a (List.mem_cons_self a t))
      · exact hmax e he
    · rw [pyMaxZip, if_neg hc]
      obtain ⟨hmem, hmax⟩ := ih b
      push_neg at hc
      have hab : zleEntry a b := by
        rcases eq_or_lt_of_le hc.1 with heq | hlt
        · exact Or.inr ⟨heq, hc.2 heq.symm⟩
        · exact Or.inl hlt
      have hsub : pyMaxZip b t ∈ b :: a :: t := by
        rcases List.mem_cons.1 hmem with hm | hm
        · rw [hm]; exact List.mem_cons_self b (a :: t)
        · exact List.mem_cons_of_mem b (List.mem_cons_of_mem a hm)
      refine ⟨hsub, fun e he => ?_⟩
      rcases List.mem_cons.1 he with he | he
      · subst he
        exact hmax e (List.mem_cons_self e t)
      · rcases List.mem_cons.1 he with he | he
        · subst he
          exact zleEntry_trans hab (hmax b (List.mem_cons_self b t))
        · exact hmax e (List.mem_cons_of_mem b he)

/-- What a `zip_counts` entry records about a processed candidate list: the
key's exact occurrence count, and its minimal distance, attained. -/
def entryOk {α : Type} [LinearOrderedField α] (pre : List (Clinic × α))
    (e : String × ℕ × α) : Prop :=
  (pre.filter (fun p => p.1.zip_code.getD "" == e.1)).length = e.2.1 ∧
  (∃ p ∈ pre, p.1.zip_code.getD "" = e.1 ∧ p.2 = e.2.2) ∧
  (∀ p ∈ pre, p.1.zip_code.getD "" = e.1 → e.2.2 ≤ p.2)

/-- The `zip_counts` accumulator summarises the processed prefix: every entry
is exact, every processed ZIP has an entry, and keys are unique. -/
def Summarizes {α : Type} [LinearOrderedField α] (pre : List (Clinic × α))
    (acc : List (String × ℕ × α)) : Prop :=
  (∀ e ∈ acc, entryOk pre e) ∧
  (∀ p ∈ pre, ∃ e ∈ acc, e.1 = p.1.zip_code.getD "") ∧
  (acc.map Prod.fst).Nodup

theorem zipCounts_step {α : Type} [LinearOrderedField α]
    (pre : List (Clinic × α)) (acc : List (String × ℕ × α)) (c : Clinic)
    (d : α) (h : Summarizes pre acc) :
    Summarizes (pre ++ [(c, d)])
      (if (acc.find? (fun e => e.1 == c.zip_code.getD "")).isSome then
        acc.map (fun e => if e.1 == c.zip_code.getD "" then
          (e.1, e.2.1 + 1, min e.2.2 d) else e)
      else acc ++ [(c.zip_code.getD "", 1, d)]) := by
  obtain ⟨hok, hcov, hnd⟩ := h
  have hcount : ∀ w : String,
      ((pre ++ [(c, d)]).filter (fun p => p.1.zip_code.getD "" == w)).length =
      (pre.filter (fun p => p.1.zip_code.getD "" == w)).length +
      (if c.zip_code.getD "" = w then 1 else 0) := by
    intro w
    rw [List.filter_append, List.length_append]
    by_cases hw : c.zip_code.getD "" = w
    · simp [hw]
    · simp [hw]
  by_cases hf : (acc.find? (fun e => e.1 == c.zip_code.getD "")).isSome = true
  · rw [if_pos hf]
    refine ⟨?_, ?_, ?_⟩
    · intro e' he'
      rw [List.mem_map] at he'
      obtain ⟨e, hemem, heq⟩ := he'
      obtain ⟨hec, ⟨p, hpmem, hpz, hpd⟩, hebd⟩ := hok e hemem
      by_cases hz : (e.1 == c.zip_code.getD "") = true
      · rw [if_pos hz] at heq
        have hzc : c.zip_code.getD "" = e.1 := (eq_of_beq hz).symm
        subst heq
        refine ⟨?_, ?_, ?_⟩
        · rw [hcount, hec, if_pos hzc]
        · rcases le_total d e.2.2 with hd | hd
          · exact ⟨(c, d), List.mem_append_right pre (List.mem_singleton_self _),
              hzc, (min_eq_right hd).symm⟩
          · exact ⟨p, List.mem_append_left _ hpmem, hpz,
              by rw [hpd, min_eq_left hd]⟩
        · intro q hq hqz
          rcases List.mem_append.1 hq with hq | hq
          · exact le_trans (min_le_left _ _) (hebd q hq hqz)
          · rw [List.mem_singleton] at hq
            subst hq
            exact min_le_right _ _
      · rw [if_neg hz] at heq
        subst heq
        have hzc : ¬c.zip_code.getD "" = e.1 := fun hh =>
          hz (beq_iff_eq.2 hh.symm)
        refine ⟨?_, ?_, ?_⟩
        · rw [hcount, hec, if_neg hzc]
          exact Nat.add_zero _
        · exact ⟨p, List.mem_append_left _ hpmem, hpz, hpd⟩
        · intro q hq hqz
          rcases List.mem_append.1 hq with hq | hq
          · exact hebd q hq hqz
          · rw [List.mem_singleton] at hq
            subst hq
            exact absurd hqz hzc
    · intro p hp
      rcases List.mem_append.1 hp with hp | hp
      · obtain ⟨e, hemem, hekey⟩ := hcov p hp
        by_cases hz : (e.1 == c.zip_code.getD "") = true
        · exact ⟨(e.1, e.2.1 + 1, min e.2.2 d),
            List.mem_map.2 ⟨e, hemem, by rw [if_pos hz]⟩, hekey⟩
        · exact ⟨e, List.mem_map.2 ⟨e, hemem, by rw [if_neg hz]⟩, hekey⟩
      · rw [List.mem_singleton] at hp
        subst hp
        obtain ⟨e0, he0⟩ := Option.isSome_iff_exists.1 hf
        have he0m := List.mem_of_find?_eq_some he0
        have he0p := List.find?_some he0
        exact ⟨(e0.1, e0.2.1 + 1, min e0.2.2 d),
          List.mem_map.2 ⟨e0, he0m, by rw [if_pos he0p]⟩, eq_of_beq he0p⟩
    · have hkeys : (acc.map (fun e => if e.1 == c.zip_code.getD "" then
          (e.1, e.2.1 + 1, min e.2.2 d) else e)).map Prod.fst =
          acc.map Prod.fst := by
        rw [List.map_map]
        refine List.map_congr_left fun e _ => ?_
        by_cases hz : (e.1 == c.zip_code.getD "") = true <;>
          simp [Function.comp, hz]
      rw [hkeys]
      exact hnd
  · rw [if_neg hf]
    have hnone : ∀ e ∈ acc, ¬(e.1 == c.zip_code.getD "") = true :=
      List.find?_eq_none.1 (Option.not_isSome_iff_eq_none.1 hf)
    have hfresh : ∀ e ∈ acc, e.1 ≠ c.zip_code.getD "" := fun e he hh =>
      hnone e he (beq_iff_eq.2 hh)
    refine ⟨?_, ?_, ?_⟩
    · intro e' he'
      rcases List.mem_append.1 he' with he' | he'
      · obtain ⟨hec, ⟨p, hpmem, hpz, hpd⟩, hebd⟩ := hok e' he'
        refine ⟨?_, ⟨p, List.mem_append_left _ hpmem, hpz, hpd⟩, ?_⟩
        · rw [hcount, hec,
            if_neg (fun hh => hfresh e' he' hh.symm)]
          exact Nat.add_zero _
        · intro q hq hqz
          rcases List.mem_append.1 hq with hq | hq
          · exact hebd q hq hqz
          · rw [List.mem_singleton] at hq
            subst hq
            exact absurd hqz.symm (hfresh e' he')
      · rw [List.mem_singleton] at he'
        subst he'
        have hpre0 : pre.filter
            (fun p => p.1.zip_code.getD "" == c.zip_code.getD "") = [] := by
          rw [List.filter_eq_nil_iff]
          intro p hp hpz
          obtain ⟨e, hemem, hekey⟩ := hcov p hp
          exact hfresh e hemem (hekey.trans (eq_of_beq hpz))
        refine ⟨?_, ?_, ?_⟩
        · rw [hcount, hpre0, if_pos rfl]
          rfl
        · exact ⟨(c, d), List.mem_append_right pre (List.mem_singleton_self _),
            rfl, rfl⟩
        · intro q hq hqz
          rcases List.mem_append.1 hq with hq | hq
          · have : q ∈ pre.filter
                (fun p => p.1.zip_code.getD "" == c.zip_code.getD "") :=
              List.mem_filter.2 ⟨hq, beq_iff_eq.2 hqz⟩
            rw [hpre0] at this
            exact absurd this (List.not_mem_nil q)
          · rw [List.mem_singleton] at hq
            subst hq
            exact le_refl d
    · intro p hp
      rcases List.mem_append.1 hp with hp | hp
      · obtain ⟨e, hemem, hekey⟩ := hcov p hp
        exact ⟨e, List.mem_append_left _ hemem, hekey⟩
      · rw [List.mem_singleton] at hp
        subst hp
        exact ⟨(c.zip_code.getD "", 1, d),
          List.mem_append_right acc (List.mem_singleton_self _), rfl⟩
    · rw [List.map_append]
      refine List.Nodup.append hnd (List.nodup_singleton _) ?_
      intro a ha hb
      simp only [List.map_cons, List.map_nil, List.mem_singleton] at hb
      subst hb
      obtain ⟨e, hemem, hekey⟩ := List.mem_map.1 ha
      exact hfresh e hemem hekey

theorem zipCounts_summarizes {α : Type} [LinearOrderedField α] :
    ∀ (l pre : List (Clinic × α)) (acc : List (String × ℕ × α)),
      Summarizes pre acc → Summarizes (pre ++ l) (zipCounts l acc) := by
  intro l
  induction l with
  | nil =>
    intro pre acc h
    simpa using h
  | cons pd rest ih =>
    intro pre acc h
    obtain ⟨c, d⟩ := pd
    have hstep := zipCounts_step pre acc c d h
    have hassoc : pre ++ (c, d) :: rest = (pre ++ [(c, d)]) ++ rest := by simp
    rw [hassoc]
    show Summarizes ((pre ++ [(c, d)]) ++ rest)
      (if (acc.find? (fun e => e.1 == c.zip_code.getD "")).isSome then
        zipCounts rest (acc.map (fun e => if e.1 == c.zip_code.getD "" then
          (e.1, e.2.1 + 1, min e.2.2 d) else e))
      else zipCounts rest (acc ++ [(c.zip_code.getD "", 1, d)]))
    by_cases hf : (acc.find? (fun e => e.1 == c.zip_code.getD "")).isSome = true
    · rw [if_pos hf]
      rw [if_pos hf] at hstep
      exact ih _ _ hstep
    · rw [if_neg hf]
      rw [if_neg hf] at hstep
      exact ih _ _ hstep

/-- The behaviour C4 ascribes to a successful `find_nearest_zipcode` call at
`k = 3`: some min(3, ·) nearest candidate neighbours exist among which the
returned ZIP attains count `cnt > 0` with minimal distance `md`; every other
ZIP there has either fewer occurrences or equally many at a minimal distance
not below `md`; and, for any cap, the imputation loop body stores the ZIP on
the record exactly when `md` is within the cap. -/
def FindNearestSpec {α : Type} [LinearOrderedField α]
    (hav : ℚ → ℚ → ℚ → ℚ → α) (target : Clinic) (pool : List Clinic)
    (z : String) (md : α) (cnt : ℕ) : Prop :=
  ∃ near rest : List (Clinic × α),
    List.Perm (near ++ rest) (zipCandidates hav target pool) ∧
    near.length = min 3 (zipCandidates hav target pool).length ∧
    (∀ p ∈ near, ∀ q ∈ rest, p.2 ≤ q.2) ∧
    (near.filter (fun p => p.1.zip_code.getD "" == z)).length = cnt ∧
    0 < cnt ∧
    (∃ p ∈ near, p.1.zip_code.getD "" = z ∧ p.2 = md) ∧
    (∀ p ∈ near, p.1.zip_code.getD "" = z → md ≤ p.2) ∧
    (∀ w : String, w ≠ z →
      (near.filter (fun p => p.1.zip_code.getD "" == w)).length < cnt ∨
      ((near.filter (fun p => p.1.zip_code.getD "" == w)).length = cnt ∧
       ∀ q ∈ near, q.1.zip_code.getD "" = w → md ≤ q.2)) ∧
    (∀ cap : α, zipApply hav cap 3 pool false target =
      if cap < md then target else { target with zip_code := some z })

set_option maxHeartbeats 800000 in
/-- C4: whenever `find_nearest_zipcode` (at its default `k = 3`) returns a
ZIP `z` with distance `md` and neighbour count `cnt`, the `FindNearestSpec`
holds: `z` is the modal ZIP among the 3 nearest valid neighbours with ties
broken towards the smaller minimal distance, `md` is `z`'s minimal neighbour
distance, and the imputation loop stores `z` exactly when `md` does not
exceed the cap (5000 m at the call site). -/
theorem find_nearest_zipcode_spec {α : Type} [LinearOrderedField α]
    (hav : ℚ → ℚ → ℚ → ℚ → α) (target : Clinic) (pool : List Clinic)
    (z : String) (md : α) (cnt : ℕ)
    (h : find_nearest_zipcode hav target pool 3 = some (z, md, cnt)) :
    FindNearestSpec hav target pool z md cnt := by
  have horig := h
  unfold find_nearest_zipcode at h
  by_cases hc :
      ¬(numTruthy target.latitude = true ∧ numTruthy target.longitude = true)
  · rw [if_pos hc] at h
    exact absurd h (by simp)
  · rw [if_neg hc] at h
    dsimp only at h
    by_cases he : (zipCandidates hav target pool).isEmpty = true
    · rw [if_pos he] at h
      exact absurd h (by simp)
    · rw [if_neg he] at h
      rcases hzc : zipCounts
          ((sortAscBy Prod.snd (zipCandidates hav target pool)).take 3) [] with
        _ | ⟨e0, es⟩
      · rw [hzc] at h
        exact absurd h (by simp)
      · rw [hzc] at h
        simp only [Option.some.injEq, Prod.mk.injEq] at h
        obtain ⟨hz, hmd, hcnt⟩ := h
        have hsum : Summarizes
            ((sortAscBy Prod.snd (zipCandidates hav target pool)).take 3)
            (e0 :: es) := by
          have h0 : Summarizes ([] : List (Clinic × α))
              ([] : List (String × ℕ × α)) := ⟨by simp, by simp, by simp⟩
          have hs := zipCounts_summarizes
            ((sortAscBy Prod.snd (zipCandidates hav target pool)).take 3)
            [] [] h0
          rw [hzc] at hs
          simpa using hs
        obtain ⟨hbmem, hbmax⟩ := pyMaxZip_mem_max es e0
        obtain ⟨hbcount, ⟨pb, hpbmem, hpbz, hpbd⟩, hbbd⟩ :=
          hsum.1 (pyMaxZip e0 es) hbmem
        have hpos : 0 < cnt := by
          rw [← hcnt, ← hbcount]
          exact List.length_pos.2 (List.ne_nil_of_mem
            (List.mem_filter.2 ⟨hpbmem, beq_iff_eq.2 hpbz⟩))
        refine ⟨(sortAscBy Prod.snd (zipCandidates hav target pool)).take 3,
          (sortAscBy Prod.snd (zipCandidates hav target pool)).drop 3,
          ?_, ?_, ?_, ?_, hpos, ?_, ?_, ?_, ?_⟩
        · rw [List.take_append_drop]
          exact sortAscBy_perm _ _
        · rw [List.length_take]
          exact congrArg (min 3)
            (sortAscBy_perm Prod.snd (zipCandidates hav target pool)).length_eq
        · intro p hp q hq
          have hpw := sortAscBy_pairwise Prod.snd (zipCandidates hav target pool)
          rw [← List.take_append_drop 3
            (sortAscBy Prod.snd (zipCandidates hav target pool))] at hpw
          exact (List.pairwise_append.1 hpw).2.2 p hp q hq
        · rw [← hz, ← hcnt]
          exact hbcount
        · exact ⟨pb, hpbmem, hpbz.trans hz, hpbd.trans hmd⟩
        · intro p hp hpz
          rw [← hmd]
          exact hbbd p hp (hpz.trans hz.symm)
        · intro w hw
          by_cases hgrp : ∃ p ∈ (sortAscBy Prod.snd
              (zipCandidates hav target pool)).take 3,
              p.1.zip_code.getD "" = w
          · obtain ⟨p, hpmem, hpz⟩ := hgrp
            obtain ⟨e', he'mem, he'key⟩ := hsum.2.1 p hpmem
            have hkw : e'.1 = w := he'key.trans hpz
            obtain ⟨he'c, _, he'bd⟩ := hsum.1 e' he'mem
            have hcw : ((sortAscBy Prod.snd
                (zipCandidates hav target pool)).take 3).filter
                (fun q => q.1.zip_code.getD "" == w) =
                ((sortAscBy Prod.snd
                (zipCandidates hav target pool)).take 3).filter
                (fun q => q.1.zip_code.getD "" == e'.1) := by
              rw [hkw]
            rcases hbmax e' he'mem with hlt | ⟨heq, hge⟩
            · left
              rw [hcw, he'c, ← hcnt]
              exact hlt
            · right
              refine ⟨by rw [hcw, he'c, heq, hcnt], ?_⟩
              intro q hq hqz
              have hqb := he'bd q hq (hqz.trans hkw.symm)
              calc md = (pyMaxZip e0 es).2.2 := hmd.symm
                _ ≤ e'.2.2 := hge
                _ ≤ q.2 := hqb
          · left
            push_neg at hgrp
            have hnil : ((sortAscBy Prod.snd
                (zipCandidates hav target pool)).take 3).filter
                (fun q => q.1.zip_code.getD "" == w) = [] := by
              rw [List.filter_eq_nil_iff]
              intro q hq hqz
              exact hgrp q hq (eq_of_beq hqz)
            rw [hnil]
            exact hpos
        · intro cap
          unfold zipApply
          simp only [horig]
          by_cases hcap : cap < md
          · rw [if_pos hcap, if_pos hcap]
          · rw [if_neg hcap, if_neg hcap]
            rfl

/-- The distance oracle for the C4 witness: report the neighbour's stored
longitude as the distance. -/
def wHavZ : ℚ → ℚ → ℚ → ℚ → ℚ := fun _ _ _ lo2 => lo2

/-- The C4 witness target: coordinates but no ZIP. -/
def wTargetZ : Clinic :=
  { id := 50, name := "T", latitude := some 1, longitude := some 1 }

/-- C4 witness neighbour at 120 m, ZIP 60611. -/
def wNbrA : Clinic :=
  { id := 51, name := "A", zip_code := some "60611", latitude := some 1, longitude := some 120 }

/-- C4 witness neighbour at 300 m, ZIP 60611. -/
def wNbrB : Clinic :=
  { id := 52, name := "B", zip_code := some "60611", latitude := some 1, longitude := some 300 }

/-- C4 witness neighbour at 4900 m, ZIP 60601. -/
def wNbrC : Clinic :=
  { id := 53, name := "C", zip_code := some "60601", latitude := some 1, longitude := some 4900 }

unseal Rat.mul Rat.inv Rat.add Rat.sub in
set_option maxRecDepth 10000 in
/-- C4 (witness): the specification's worked example — neighbours at 120 m
and 300 m share ZIP 60611 and one at 4900 m has ZIP 60601 — yields
`("60611", 120, 2)`, and the C4 property holds of that call. -/
theorem find_nearest_zipcode_spec_witness :
    find_nearest_zipcode wHavZ wTargetZ [wNbrA, wNbrB, wNbrC] 3 =
      some ("60611", (120 : ℚ), 2) ∧
    FindNearestSpec wHavZ wTargetZ [wNbrA, wNbrB, wNbrC] "60611" 120 2 :=
  ⟨by decide, find_nearest_zipcode_spec wHavZ wTargetZ [wNbrA, wNbrB, wNbrC]
    "60611" 120 2 (by decide)⟩

end ClinicIntel
